import Mathlib

/-!
# A tagged-value compiler back end: embedding of `main.c`

The program is a single C file for x86-64 Linux.  It defines

* a tagged encoding of integers, characters, booleans and nil in one machine word,
* AST nodes that are those very words,
* a growable byte buffer backed by `mmap`,
* an emitter for `mov r64, imm32` and `ret`,
* a compiler from a literal node to a two-instruction routine.

Conventions of the embedding.

* `word` (`int64_t`) is an `Int` in `[-2^63, 2^63)`; `size_t` is a `Nat` below `2^64`;
  `int32_t` is an `Int` in `[-2^31, 2^31)`; `char` is the signed 8-bit type of the
  platform, an `Int` in `[-128, 127]`; `byte` is a `Nat` below `256`.
  Every conversion between these types is written out (`toWord`, `toUword`,
  `toInt32`, `toChar`, `toByte`), so wrap-around is visible in the definitions.
* Signed shifts behave as the compilers of the platform define them: `<<` is
  multiplication by a power of two reduced to 64 bits, `>>` is the arithmetic shift.
* Assertions are enabled.  A failed `assert` ends the process.  It is a `Fault`; the
  buffer at that moment is kept next to it, so that "nothing was written before the
  failure" can be stated.
* The memory region of a buffer is the list of its bytes; the length of that list is the
  size of the mapping.  `mmap` and `munmap` reject a length of zero (EINVAL), which the
  two assertions of the source turn into faults.  Whether `mmap` grants any other
  request is up to the operating system: it is the parameter `Kernel` of every function
  that can reach `mmap`, and a refusal is the fault of `assert(result != MAP_FAILED)`.
  A statement that a write succeeds says which requests the kernel has to grant for it.
  A store or a copy that leaves the region is a fault.  Page protection is not
  modelled: the `state` field is the only trace of `Buffer_make_executable`.
-/

namespace Jit

/-! ## Machine integers -/

/-- Conversion of an integer value to `word` (`int64_t`): reduction to `[-2^63, 2^63)`. -/
def toWord (x : Int) : Int := (x + 2 ^ 63) % 2 ^ 64 - 2 ^ 63

/-- Conversion of an integer value to `uword` / `size_t`: the 64-bit pattern as a natural number. -/
def toUword (x : Int) : Nat := (x % 2 ^ 64).toNat

/-- Conversion of an integer value to `int32_t`: reduction to `[-2^31, 2^31)`. -/
def toInt32 (x : Int) : Int := (x + 2 ^ 31) % 2 ^ 32 - 2 ^ 31

/-- Conversion of an integer value to `char` (signed, 8 bits). -/
def toChar (x : Int) : Int := (x + 2 ^ 7) % 2 ^ 8 - 2 ^ 7

/-- Conversion of an integer value to `byte` (`unsigned char`). -/
def toByte (x : Int) : Nat := (x % 2 ^ 8).toNat

/-- Bitwise and of two signed words, computed on their 64-bit patterns. -/
def wordAnd (a b : Int) : Int := toWord ((toUword a &&& toUword b : Nat) : Int)

/-- Bitwise or of two signed words, computed on their 64-bit patterns. -/
def wordOr (a b : Int) : Int := toWord ((toUword a ||| toUword b : Nat) : Int)

/-- Left shift of a signed word: multiplication by `2^k`, reduced to 64 bits. -/
def wordShl (a : Int) (k : Nat) : Int := toWord (a * 2 ^ k)

/-- Right shift of a signed word: the arithmetic shift. -/
def wordShr (a : Int) (k : Nat) : Int := a >>> k

/-! ## Objects -/

def kBitsPerByte : Nat := 8
def kWordSize : Nat := 8
def kBitsPerWord : Nat := kWordSize * kBitsPerByte

def kIntegerTag : Int := 0x0
def kIntegerTagMask : Int := 0x3
def kIntegerShift : Nat := 2
def kIntegerBits : Nat := kBitsPerWord - kIntegerShift
def kIntegerMax : Int := wordShl 1 ((kIntegerBits - 1) - 1)
def kIntegerMin : Int := -(wordShl 1 (kIntegerBits - 1))

def kImmediateTagMask : Int := 0x3f

def kCharTag : Int := 0xf
def kCharMask : Int := 0xff
def kCharShift : Nat := 8

def kBoolTag : Int := 0x1f
def kBoolMask : Int := 0x80
def kBoolShift : Nat := 7

/-- The ways the process can stop: a failed assertion (with its message, or the asserted
condition when there is none) or an access outside a mapped region. -/
inductive Fault where
  | assertion (msg : String)
  | outOfRegion
  deriving DecidableEq, Repr

deriving instance DecidableEq for Except

/-- `Object_encode_integer`: two range assertions, then the shift. -/
def Object_encode_integer (value : Int) : Except Fault Int :=
  if ¬ (value < kIntegerMax) then .error (.assertion "too big")
  else if ¬ (value > kIntegerMin) then .error (.assertion "too small")
  else .ok (wordShl value kIntegerShift)

/-- `Object_encode_char`: `(word)value << kCharShift | kCharTag`. -/
def Object_encode_char (value : Int) : Int :=
  wordOr (wordShl value kCharShift) kCharTag

/-- `Object_decode_char`: `value >> kCharShift & kCharMask`, returned as a `char`. -/
def Object_decode_char (value : Int) : Int :=
  toChar (wordAnd (wordShr value kCharShift) kCharMask)

/-- `Object_encode_bool`: `((word)value << kBoolShift) | kBoolTag`. -/
def Object_encode_bool (value : Bool) : Int :=
  wordOr (wordShl (if value then 1 else 0) kBoolShift) kBoolTag

/-- `Object_decode_bool`: `value & kBoolMask`, returned as a `bool` (non-zero is true). -/
def Object_decode_bool (value : Int) : Bool :=
  wordAnd value kBoolMask != 0

def Object_true : Int := Object_encode_bool true

def Object_false : Int := Object_encode_bool false

def Object_nil : Int := 0x2f

/-! ## AST: a node is the word itself, cast to a pointer -/

def AST_new_integer (value : Int) : Except Fault Int := Object_encode_integer value

def AST_is_integer (node : Int) : Bool := wordAnd node kIntegerTagMask == kIntegerTag

def AST_get_integer (node : Int) : Int := wordShr node kIntegerShift

def AST_is_char (node : Int) : Bool := wordAnd node kImmediateTagMask == kCharTag

def AST_get_char (node : Int) : Int := Object_decode_char node

def AST_new_char (value : Int) : Int := Object_encode_char value

def AST_is_bool (node : Int) : Bool := wordAnd node kImmediateTagMask == kBoolTag

def AST_get_bool (node : Int) : Bool := Object_decode_bool node

def AST_new_bool (value : Bool) : Int := Object_encode_bool value

def AST_is_nil (node : Int) : Bool := node == Object_nil

def AST_nil : Int := Object_nil

/-! ## Buffer -/

inductive BufferState where
  | kWriteable
  | kExecutable
  deriving DecidableEq, Repr

/-- The `Buffer` struct.  `address` stands for the mapped region the pointer refers to:
the list of the bytes of the region, as long as the mapping (`[]` for `NULL`).
`len` and `capacity` are `size_t` values. -/
structure Buffer where
  address : List Nat
  state : BufferState
  len : Nat
  capacity : Nat
  deriving DecidableEq, Repr

/-- The bytes appended so far: the first `len` bytes of the region. -/
def Buffer.bytes (buf : Buffer) : List Nat := buf.address.take buf.len

/-- A computation on the buffer passed by pointer: it ends with a value or with a fault,
and in both cases leaves a buffer behind. -/
def Exec (α : Type) : Type := Buffer → Except Fault α × Buffer

/-- Return a value, leaving the buffer alone. -/
def Exec.ret {α : Type} (a : α) : Exec α := fun buf => (.ok a, buf)

/-- Stop the process with a fault. -/
def Exec.fail {α : Type} (e : Fault) : Exec α := fun buf => (.error e, buf)

/-- Sequencing: the second computation runs on the buffer left by the first, unless the
first ended with a fault. -/
def Exec.seq {α β : Type} (m : Exec α) (f : α → Exec β) : Exec β := fun buf =>
  match m buf with
  | (.ok a, buf1) => f a buf1
  | (.error e, buf1) => (.error e, buf1)

instance : Monad Exec where
  pure := Exec.ret
  bind := Exec.seq

/-- A pure computation that may fault, run as a step of a buffer computation. -/
def Exec.ofExcept {α : Type} (r : Except Fault α) : Exec α := fun buf => (r, buf)

/-- The operating system as far as the program depends on it: `grants n` tells whether
`mmap` grants an anonymous mapping of `n` bytes.  It is a parameter of every function
that can reach `mmap`, so each of them can meet a refusal.  A buffer that grows asks for
a larger size each time, so a function of the size describes every sequence of answers
that one buffer can meet. -/
structure Kernel where
  grants : Nat → Bool

/-- `Buffer_alloc_writeable`: an anonymous mapping of `capacity` zero bytes.  `mmap`
returns `MAP_FAILED` for a length of zero and whenever the kernel refuses the request;
the assertion then stops the process. -/
def Buffer_alloc_writeable (kern : Kernel) (capacity : Nat) : Except Fault (List Nat) :=
  if capacity = 0 ∨ kern.grants capacity = false then
    .error (.assertion "result != MAP_FAILED")
  else .ok (List.replicate capacity 0)

/-- `Buffer_init`. -/
def Buffer_init (kern : Kernel) (capacity : Nat) : Except Fault Buffer :=
  match Buffer_alloc_writeable kern capacity with
  | .error e => .error e
  | .ok address => .ok { address := address, state := .kWriteable, len := 0, capacity := capacity }

/-- `Buffer_deinit`: the result of `munmap` is not looked at. -/
def Buffer_deinit : Exec Unit := fun buf =>
  (.ok (), { buf with address := [], len := 0, capacity := 0 })

/-- `Buffer_make_executable`; `result` is what `mprotect` returned. -/
def Buffer_make_executable (result : Int) : Exec Int := fun buf =>
  (.ok result, { buf with state := .kExecutable })

/-- `Buffer_at8`: a load from the region. -/
def Buffer_at8 (buf : Buffer) (pos : Nat) : Except Fault Nat :=
  match buf.address.get? pos with
  | some b => .ok b
  | none => .error .outOfRegion

/-- `Buffer_at_put8`: a store into the region. -/
def Buffer_at_put8 (pos : Nat) (b : Nat) : Exec Unit := fun buf =>
  if pos < buf.address.length then (.ok (), { buf with address := buf.address.set pos b })
  else (.error .outOfRegion, buf)

/-- `max` on words. -/
def max (left right : Int) : Int := if left > right then left else right

/-- `memcpy(dst, src, n)` on two regions: the first `n` bytes of `dst` become those of
`src`; both regions have to hold `n` bytes. -/
def memcpy (dst src : List Nat) (n : Nat) : Except Fault (List Nat) :=
  if n ≤ src.length ∧ n ≤ dst.length then .ok (src.take n ++ dst.drop n)
  else .error .outOfRegion

/-- `munmap(address, length)`: `0`, or `-1` for a length of zero. -/
def munmap (length : Nat) : Int := if length = 0 then -1 else 0

/-- `Buffer_ensure_capacity`.  The comparison and the two candidates for the new capacity
are computed in `size_t`; `max` receives them as words; the result goes back to `size_t`. -/
def Buffer_ensure_capacity (kern : Kernel) (additional_capacity : Int) : Exec Unit := fun buf =>
  if (buf.len + toUword additional_capacity) % 2 ^ 64 ≤ buf.capacity then (.ok (), buf)
  else
    let new_capacity : Int :=
      max (toWord ((buf.capacity * 2 % 2 ^ 64 : Nat) : Int))
        (toWord (((buf.capacity + toUword additional_capacity) % 2 ^ 64 : Nat) : Int))
    match Buffer_alloc_writeable kern (toUword new_capacity) with
    | .error e => (.error e, buf)
    | .ok fresh =>
      match memcpy fresh buf.address buf.len with
      | .error e => (.error e, buf)
      | .ok address =>
        let result := munmap buf.capacity
        if ¬ (result = 0) then (.error (.assertion "munmap failed"), buf)
        else (.ok (), { buf with address := address, capacity := toUword new_capacity })

/-- The expression `buf->len++`: its value is the old length. -/
def Buffer_len_postinc : Exec Nat := fun buf =>
  (.ok buf.len, { buf with len := (buf.len + 1) % 2 ^ 64 })

/-- `Buffer_write8`: the argument is a `byte`; the store goes to the old `len`, which is
then incremented. -/
def Buffer_write8 (kern : Kernel) (b : Nat) : Exec Unit := do
  Buffer_ensure_capacity kern 1
  let pos ← Buffer_len_postinc
  Buffer_at_put8 pos b

/-- The loop of `Buffer_write32`, with `i` the loop variable and `n` the number of
iterations still to run. -/
def Buffer_write32_loop (kern : Kernel) (value : Int) (i : Nat) : Nat → Exec Unit
  | 0 => pure ()
  | n + 1 => do
    Buffer_write8 kern (toByte (wordAnd (wordShr value (i * kBitsPerByte)) 0xff))
    Buffer_write32_loop kern value (i + 1) n

/-- `Buffer_write32`: `sizeof value` is 4. -/
def Buffer_write32 (kern : Kernel) (value : Int) : Exec Unit :=
  Buffer_write32_loop kern value 0 4

/-! ## Emit -/

inductive Register where
  | kRax | kRcx | kRdx | kRbx | kRsp | kRbp | kRsi | kRdi
  deriving DecidableEq, Repr

/-- The value of an enumerator of `Register`. -/
def Register.val : Register → Nat
  | .kRax => 0 | .kRcx => 1 | .kRdx => 2 | .kRbx => 3
  | .kRsp => 4 | .kRbp => 5 | .kRsi => 6 | .kRdi => 7

def kRexPrefix : Nat := 0x48

/-- `Emit_mov_reg_imm32`; `src` is an `int32_t`. -/
def Emit_mov_reg_imm32 (kern : Kernel) (dst : Register) (src : Int) : Exec Unit := do
  Buffer_write8 kern kRexPrefix
  Buffer_write8 kern (toByte 0xc7)
  Buffer_write8 kern (toByte (0xc0 + (dst.val : Int)))
  Buffer_write32 kern src

/-- `Emit_ret`. -/
def Emit_ret (kern : Kernel) : Exec Unit := Buffer_write8 kern (toByte 0xc3)

/-! ## Compile -/

/-- `Compile_expr`.  The argument of the emitter is evaluated first, so a failed range
assertion stops the process before any byte is written; the word it yields is converted
to the `int32_t` parameter. -/
def Compile_expr (kern : Kernel) (node : Int) : Exec Int :=
  if AST_is_integer node then do
    let value := AST_get_integer node
    let imm ← Exec.ofExcept (Object_encode_integer value)
    Emit_mov_reg_imm32 kern .kRax (toInt32 imm)
    pure 0
  else if AST_is_char node then do
    let value := AST_get_char node
    Emit_mov_reg_imm32 kern .kRax (toInt32 (Object_encode_char value))
    pure 0
  else if AST_is_bool node then do
    let value := AST_get_bool node
    Emit_mov_reg_imm32 kern .kRax (toInt32 (Object_encode_bool value))
    pure 0
  else Exec.fail (.assertion "unexpected node type")

/-- `Compile_function`. -/
def Compile_function (kern : Kernel) (node : Int) : Exec Int := do
  let result ← Compile_expr kern node
  if result ≠ 0 then pure result
  else do
    Emit_ret kern
    pure 0

/-! ## Auxiliary definitions for the statements -/

/-- The buffer `Buffer_init capacity` leaves behind when the mapping is granted. -/
def emptyBuffer (capacity : Nat) : Buffer :=
  { address := List.replicate capacity 0, state := .kWriteable, len := 0, capacity := capacity }

/-- A live buffer: the region is `capacity` bytes long, it is not empty, and the bytes
written so far fit in it. -/
def Buffer.Live (buf : Buffer) : Prop :=
  buf.address.length = buf.capacity ∧ 0 < buf.capacity ∧ buf.len ≤ buf.capacity

instance (buf : Buffer) : Decidable buf.Live := by
  unfold Buffer.Live
  infer_instance

/-- The kernel that refuses every request. -/
def Kernel.refusing : Kernel := ⟨fun _ => false⟩

/-- The kernel that grants the requests of at most `bound` bytes and refuses the larger
ones. -/
def Kernel.upTo (bound : Nat) : Kernel := ⟨fun n => decide (n ≤ bound)⟩

/-- The kernel grants what appending `extra` bytes to the buffer can ask for: when the
bytes do not fit the current capacity, every request above that capacity and up to twice
the final length is granted.  (Each growth of such a run asks for more than the one
before it and for at most twice the length reached, so this names all its requests.) -/
def Kernel.GrantsGrowth (kern : Kernel) (buf : Buffer) (extra : Nat) : Prop :=
  buf.capacity < buf.len + extra →
    ∀ n, buf.capacity < n → n ≤ 2 * (buf.len + extra) → kern.grants n = true

/-- The four bytes of the low 32 bits of a value, least significant byte first. -/
def le32 (x : Int) : List Nat :=
  [(x % 2 ^ 32).toNat % 256, (x % 2 ^ 32).toNat / 2 ^ 8 % 256,
    (x % 2 ^ 32).toNat / 2 ^ 16 % 256, (x % 2 ^ 32).toNat / 2 ^ 24 % 256]

/-- What `Compile_expr` does once the kind of the node is settled and the immediate is
known: emit the load, return 0. -/
def emitLiteral (kern : Kernel) (imm : Int) : Exec Int := do
  Emit_mov_reg_imm32 kern .kRax (toInt32 imm)
  pure 0

/-- The capacity a growing `Buffer_ensure_capacity` computes from the old capacity and the
request: the expression assigned to `new_capacity`, back in `size_t`. -/
def newCapacity (capacity : Nat) (additional_capacity : Int) : Nat :=
  toUword (max (toWord ((capacity * 2 % 2 ^ 64 : Nat) : Int))
    (toWord (((capacity + toUword additional_capacity) % 2 ^ 64 : Nat) : Int)))

/-- A computation keeps a property of the buffer: whenever the buffer it starts from has
the property, so has the buffer it leaves, whether it ends with a value or with a fault. -/
def Exec.Keeps {α : Type} (P : Buffer → Prop) (m : Exec α) : Prop :=
  ∀ buf, P buf → P (m buf).2

/-- A computation with its value dropped. -/
def Exec.discard {α : Type} (m : Exec α) : Exec Unit := fun buf =>
  match m buf with
  | (.ok _, buf1) => (.ok (), buf1)
  | (.error e, buf1) => (.error e, buf1)

/-- The operations a caller can apply to an initialised buffer, with their arguments;
`make_executable` carries the result of `mprotect`. -/
inductive BufferOp where
  | ensure_capacity (additional_capacity : Int)
  | write8 (b : Nat)
  | write32 (value : Int)
  | mov_reg_imm32 (dst : Register) (src : Int)
  | ret
  | compile_expr (node : Int)
  | compile_function (node : Int)
  | make_executable (result : Int)
  | deinit
  deriving DecidableEq, Repr

/-- The function of the source an operation stands for. -/
def BufferOp.exec (kern : Kernel) : BufferOp → Exec Unit
  | .ensure_capacity a => Buffer_ensure_capacity kern a
  | .write8 b => Buffer_write8 kern b
  | .write32 v => Buffer_write32 kern v
  | .mov_reg_imm32 dst src => Emit_mov_reg_imm32 kern dst src
  | .ret => Emit_ret kern
  | .compile_expr node => Exec.discard (Compile_expr kern node)
  | .compile_function node => Exec.discard (Compile_function kern node)
  | .make_executable r => Exec.discard (Buffer_make_executable r)
  | .deinit => Buffer_deinit

/-- The buffer after a sequence of operations; a fault ends the process, so the
operations after it are not run. -/
def runOps (kern : Kernel) : List BufferOp → Buffer → Buffer
  | [], buf => buf
  | op :: ops, buf =>
    match op.exec kern buf with
    | (.ok _, buf1) => runOps kern ops buf1
    | (.error _, buf1) => buf1

/-- A call of one of the two append primitives. -/
inductive Write where
  | write8 (b : Nat)
  | write32 (value : Int)
  deriving DecidableEq, Repr

/-- The function of the source a write stands for. -/
def Write.exec (kern : Kernel) : Write → Exec Unit
  | .write8 b => Buffer_write8 kern b
  | .write32 v => Buffer_write32 kern v

/-- A sequence of writes, run in order on the buffer. -/
def runWrites (kern : Kernel) : List Write → Exec Unit
  | [] => pure ()
  | w :: ws => do
    w.exec kern
    runWrites kern ws

/-- The bytes a write stands for in the plain list: one for `write8`, the four
little-endian bytes for `write32`. -/
def Write.listBytes : Write → List Nat
  | .write8 b => [b]
  | .write32 v => le32 v

/-- The plain byte list: the bytes of the writes appended, in order, to a list that
starts empty. -/
def listModel (ws : List Write) : List Nat :=
  ws.foldl (fun acc w => acc ++ w.listBytes) []

/-- The byte `(value >> (i * kBitsPerByte)) & 0xff` that iteration `i` of the loop of
`Buffer_write32` passes to `Buffer_write8`. -/
def write32Byte (value : Int) (i : Nat) : Nat :=
  toByte (wordAnd (wordShr value (i * kBitsPerByte)) 0xff)

/-- The 64-bit value that `mov r64, imm32` (`REX.W C7 /0 id`) loads: the four bytes of
the immediate, least significant first, read as a 32-bit number and sign-extended. -/
def imm32SignExtended (i0 i1 i2 i3 : Nat) : Int :=
  toInt32 ((i0 + 2 ^ 8 * i1 + 2 ^ 16 * i2 + 2 ^ 24 * i3 : Nat) : Int)

/-- The word in `rax` after a call of a routine of the one shape the compiler writes,
`mov rax, imm32` followed by `ret`; `none` for any other byte sequence. -/
def runRoutine : List Nat → Option Int
  | [0x48, 0xc7, 0xc0, i0, i1, i2, i3, 0xc3] => some (imm32SignExtended i0 i1 i2 i3)
  | _ => none

/-! ## Facts about the machine arithmetic -/

theorem kIntegerMax_eq : kIntegerMax = 2 ^ 60 := by decide

theorem kIntegerMin_eq : kIntegerMin = -2 ^ 61 := by decide

theorem toUword_lt (a : Int) : toUword a < 2 ^ 64 := by
  unfold toUword; omega

theorem toUword_cast (a : Int) : ((toUword a : Nat) : Int) = a % 2 ^ 64 := by
  unfold toUword; omega

theorem toUword_of_nonneg (a : Int) (h0 : 0 ≤ a) (h1 : a < 2 ^ 64) : toUword a = a.toNat := by
  unfold toUword; omega

theorem toWord_of_range (a : Int) (h0 : -2 ^ 63 ≤ a) (h1 : a < 2 ^ 63) : toWord a = a := by
  unfold toWord; omega

/-- Masking with `2^k - 1` keeps the residue modulo `2^k`. -/
theorem wordAnd_low_mask (a : Int) (k : Nat) (hk : k ≤ 63) :
    wordAnd a (2 ^ k - 1) = a % 2 ^ k := by
  have hpos : (0 : Int) < 2 ^ k := by positivity
  have hle : (2 : Int) ^ k ≤ 2 ^ 63 := pow_le_pow_right₀ (by norm_num) hk
  have hmask : toUword (2 ^ k - 1) = 2 ^ k - 1 := by
    rw [toUword_of_nonneg _ (by omega) (by omega)]
    have : ((2 : Int) ^ k - 1).toNat = ((2 ^ k - 1 : Nat) : Int).toNat := by
      congr 1
      have : 1 ≤ 2 ^ k := Nat.one_le_two_pow
      push_cast [Nat.cast_sub this]
      rfl
    rw [this, Int.toNat_ofNat]
  unfold wordAnd
  rw [hmask, Nat.and_pow_two_sub_one_eq_mod]
  have hdvd : (2 : Int) ^ k ∣ 2 ^ 64 := pow_dvd_pow 2 (by omega)
  have hcast : ((toUword a % 2 ^ k : Nat) : Int) = a % 2 ^ k := by
    push_cast
    rw [toUword_cast, Int.emod_emod_of_dvd _ hdvd]
  rw [hcast]
  have h1 : 0 ≤ a % 2 ^ k := Int.emod_nonneg _ (by omega)
  have h2 : a % 2 ^ k < 2 ^ k := Int.emod_lt_of_pos _ hpos
  exact toWord_of_range _ (by omega) (by omega)

theorem wordAnd_kIntegerTagMask (a : Int) : wordAnd a kIntegerTagMask = a % 4 := by
  have h := wordAnd_low_mask a 2 (by omega)
  norm_num at h
  simpa [kIntegerTagMask] using h

theorem wordAnd_kImmediateTagMask (a : Int) : wordAnd a kImmediateTagMask = a % 64 := by
  have h := wordAnd_low_mask a 6 (by omega)
  norm_num at h
  simpa [kImmediateTagMask] using h

theorem wordAnd_0xff (a : Int) : wordAnd a 0xff = a % 256 := by
  have h := wordAnd_low_mask a 8 (by omega)
  norm_num at h
  simpa using h

theorem wordShr_eq_div (a : Int) (k : Nat) : wordShr a k = a / 2 ^ k := by
  unfold wordShr
  rw [Int.shiftRight_eq_div_pow]
  push_cast
  rfl

/-- Or-ing a pattern below `2^k` into a word whose low `k` bits are clear adds it. -/
theorem wordOr_low (a t : Int) (k : Nat) (hk : k ≤ 63) (ha0 : -2 ^ 63 ≤ a) (ha1 : a < 2 ^ 63)
    (hdiv : a % 2 ^ k = 0) (ht0 : 0 ≤ t) (ht1 : t < 2 ^ k) : wordOr a t = a + t := by
  have hpos : (0 : Int) < 2 ^ k := by positivity
  have hle : (2 : Int) ^ k ≤ 2 ^ 63 := pow_le_pow_right₀ (by norm_num) hk
  have hdvd : (2 : Int) ^ k ∣ 2 ^ 64 := pow_dvd_pow 2 (by omega)
  have htT : toUword t = t.toNat := toUword_of_nonneg t ht0 (by omega)
  have htlt : t.toNat < 2 ^ k := by
    have : ((t.toNat : Nat) : Int) < ((2 ^ k : Nat) : Int) := by
      push_cast
      rw [Int.toNat_of_nonneg ht0]; exact ht1
    exact_mod_cast this
  -- the pattern of `a` is a multiple of `2^k`
  have hmod : toUword a % 2 ^ k = 0 := by
    have : ((toUword a % 2 ^ k : Nat) : Int) = 0 := by
      push_cast
      rw [toUword_cast, Int.emod_emod_of_dvd _ hdvd, hdiv]
    exact_mod_cast this
  have hsplit : toUword a = 2 ^ k * (toUword a / 2 ^ k) := by
    have := Nat.div_add_mod (toUword a) (2 ^ k)
    omega
  unfold wordOr
  rw [htT, hsplit, ← Nat.mul_add_lt_is_or htlt, ← hsplit]
  push_cast
  rw [toUword_cast, Int.toNat_of_nonneg ht0]
  -- `a % 2^64 + t` and `a + t` denote the same word
  have hk64 : (2 : Int) ^ 64 = 2 ^ k * 2 ^ (64 - k) := by
    rw [← pow_add]; congr 1; omega
  have hamod : a % 2 ^ 64 % 2 ^ k = 0 := by rw [Int.emod_emod_of_dvd _ hdvd, hdiv]
  have hbound : a % 2 ^ 64 + t < 2 ^ 64 := by
    -- a % 2^64 is a multiple of 2^k below 2^64, so at most 2^64 - 2^k
    obtain ⟨q, hq⟩ := Int.dvd_of_emod_eq_zero hamod
    have hlt : a % 2 ^ 64 < 2 ^ 64 := Int.emod_lt_of_pos _ (by norm_num)
    have hq1 : q < 2 ^ (64 - k) := by
      by_contra hcon
      push_neg at hcon
      have : (2 : Int) ^ k * 2 ^ (64 - k) ≤ 2 ^ k * q := by
        exact Int.mul_le_mul_of_nonneg_left hcon (by omega)
      omega
    have : (2 : Int) ^ k * q + 2 ^ k ≤ 2 ^ k * 2 ^ (64 - k) := by
      have : q + 1 ≤ 2 ^ (64 - k) := by omega
      have := Int.mul_le_mul_of_nonneg_left this (show (0 : Int) ≤ 2 ^ k by omega)
      linarith
    omega
  have hsum0 : -2 ^ 63 ≤ a + t := by omega
  have hsum1 : a + t < 2 ^ 63 := by
    -- a + t < 2^63 because a is a multiple of 2^k below 2^63
    obtain ⟨q, hq⟩ := Int.dvd_of_emod_eq_zero hdiv
    have h63 : (2 : Int) ^ 63 = 2 ^ k * 2 ^ (63 - k) := by
      rw [← pow_add]; congr 1; omega
    have hq1 : q < 2 ^ (63 - k) := by
      by_contra hcon
      push_neg at hcon
      have : (2 : Int) ^ k * 2 ^ (63 - k) ≤ 2 ^ k * q :=
        Int.mul_le_mul_of_nonneg_left hcon (by omega)
      omega
    have : q + 1 ≤ 2 ^ (63 - k) := by omega
    have := Int.mul_le_mul_of_nonneg_left this (show (0 : Int) ≤ 2 ^ k by omega)
    linarith
  unfold toWord
  omega

/-! ## The tagged encoding -/

/-- Inside the open range the shift of `Object_encode_integer` is an exact multiplication. -/
theorem Object_encode_integer_of_range (v : Int) (hlo : kIntegerMin < v) (hhi : v < kIntegerMax) :
    Object_encode_integer v = .ok (4 * v) := by
  rw [kIntegerMin_eq] at hlo
  rw [kIntegerMax_eq] at hhi
  have h1 : v < kIntegerMax := by rw [kIntegerMax_eq]; exact hhi
  have h2 : v > kIntegerMin := by rw [kIntegerMin_eq]; exact hlo
  have h3 : wordShl v kIntegerShift = 4 * v := by
    unfold wordShl kIntegerShift
    rw [toWord_of_range _ (by omega) (by omega)]
    omega
  simp [Object_encode_integer, h1, h2, h3]

theorem AST_is_integer_iff (n : Int) : AST_is_integer n = true ↔ n % 4 = 0 := by
  simp [AST_is_integer, wordAnd_kIntegerTagMask, kIntegerTag]

theorem AST_is_char_iff (n : Int) : AST_is_char n = true ↔ n % 64 = 15 := by
  simp [AST_is_char, wordAnd_kImmediateTagMask, kCharTag]

theorem AST_is_bool_iff (n : Int) : AST_is_bool n = true ↔ n % 64 = 31 := by
  simp [AST_is_bool, wordAnd_kImmediateTagMask, kBoolTag]

theorem AST_is_nil_iff (n : Int) : AST_is_nil n = true ↔ n = 47 := by
  simp [AST_is_nil, Object_nil]

/-- The word of a character: the code in bits 8 and up, the tag below. -/
theorem Object_encode_char_eq (c : Int) (h0 : -128 ≤ c) (h1 : c ≤ 127) :
    Object_encode_char c = 256 * c + 15 := by
  have hs : wordShl c kCharShift = 256 * c := by
    unfold wordShl kCharShift
    rw [toWord_of_range _ (by omega) (by omega)]
    omega
  unfold Object_encode_char
  rw [hs]
  have h := wordOr_low (256 * c) kCharTag 8 (by omega) (by omega) (by omega) (by omega)
    (by decide) (by decide)
  rw [h]
  rfl

/-- The node of an in-range integer decodes to that integer. -/
theorem integer_round_trip_core (v : Int) (hlo : kIntegerMin < v) (hhi : v < kIntegerMax) :
    ∃ node, AST_new_integer v = .ok node ∧ AST_get_integer node = v ∧ node = 4 * v := by
  refine ⟨4 * v, Object_encode_integer_of_range v hlo hhi, ?_, rfl⟩
  unfold AST_get_integer
  rw [wordShr_eq_div]
  unfold kIntegerShift
  omega

theorem Object_decode_encode_char (c : Int) (hc0 : -128 ≤ c) (hc1 : c ≤ 127) :
    Object_decode_char (Object_encode_char c) = c := by
  rw [Object_encode_char_eq c hc0 hc1]
  unfold Object_decode_char kCharMask
  rw [wordAnd_0xff, wordShr_eq_div]
  unfold toChar kCharShift
  omega

theorem Object_encode_bool_true : Object_encode_bool true = 0x9f := by decide

theorem Object_encode_bool_false : Object_encode_bool false = 0x1f := by decide

/-! ## Running buffer computations -/

theorem Exec.bind_of_ok {α β : Type} {m : Exec α} {f : α → Exec β} {buf buf1 : Buffer} {a : α}
    (h : m buf = (.ok a, buf1)) : (m >>= f) buf = f a buf1 := by
  show Exec.seq m f buf = f a buf1
  unfold Exec.seq
  rw [h]

theorem Exec.bind_of_error {α β : Type} {m : Exec α} {f : α → Exec β} {buf buf1 : Buffer}
    {e : Fault} (h : m buf = (.error e, buf1)) : (m >>= f) buf = (.error e, buf1) := by
  show Exec.seq m f buf = (.error e, buf1)
  unfold Exec.seq
  rw [h]

theorem Exec.pure_apply {α : Type} (a : α) (buf : Buffer) :
    (pure a : Exec α) buf = (.ok a, buf) := rfl

theorem List.take_succ_set_self {α : Type} (l : List α) (n : Nat) (b : α) (h : n < l.length) :
    (l.set n b).take (n + 1) = l.take n ++ [b] := by
  induction l generalizing n with
  | nil => simp at h
  | cons x xs ih =>
    cases n with
    | zero => simp
    | succ k =>
      simp only [List.length_cons, Nat.add_lt_add_iff_right] at h
      simp [ih k h]

/-- The capacity chosen by a growing `Buffer_ensure_capacity` covers the request, as long
as `capacity + additional` stays below `2^63`. -/
theorem new_capacity_bounds (cap a : Nat) (hcap : 0 < cap) (hsum : cap + a < 2 ^ 63) :
    cap + a ≤ toUword (max (toWord ((cap * 2 % 2 ^ 64 : Nat) : Int))
        (toWord (((cap + a) % 2 ^ 64 : Nat) : Int))) ∧
      toUword (max (toWord ((cap * 2 % 2 ^ 64 : Nat) : Int))
        (toWord (((cap + a) % 2 ^ 64 : Nat) : Int))) ≤ cap * 2 + a := by
  have h1 : cap * 2 % 2 ^ 64 = cap * 2 := Nat.mod_eq_of_lt (by omega)
  have h2 : (cap + a) % 2 ^ 64 = cap + a := Nat.mod_eq_of_lt (by omega)
  rw [h1, h2]
  have hy : toWord ((cap + a : Nat) : Int) = ((cap + a : Nat) : Int) :=
    toWord_of_range _ (by omega) (by omega)
  rw [hy]
  by_cases hsmall : cap * 2 < 2 ^ 63
  · have hx : toWord ((cap * 2 : Nat) : Int) = ((cap * 2 : Nat) : Int) :=
      toWord_of_range _ (by omega) (by omega)
    rw [hx]
    unfold max
    split
    · rename_i h
      have : toUword ((cap * 2 : Nat) : Int) = cap * 2 := by unfold toUword; omega
      rw [this]; omega
    · rename_i h
      have : toUword ((cap + a : Nat) : Int) = cap + a := by unfold toUword; omega
      rw [this]; omega
  · have hx : toWord ((cap * 2 : Nat) : Int) = ((cap * 2 : Nat) : Int) - 2 ^ 64 := by
      unfold toWord; omega
    rw [hx]
    unfold max
    split
    · rename_i h
      omega
    · rename_i h
      have : toUword ((cap + a : Nat) : Int) = cap + a := by unfold toUword; omega
      rw [this]; omega

theorem Buffer_alloc_writeable_ok (kern : Kernel) (n : Nat) (hn0 : n ≠ 0)
    (hgr : kern.grants n = true) :
    Buffer_alloc_writeable kern n = .ok (List.replicate n 0) := by
  unfold Buffer_alloc_writeable
  rw [if_neg]
  rintro (h | h)
  · exact hn0 h
  · rw [hgr] at h
    exact Bool.noConfusion h

theorem Buffer_alloc_writeable_refused (kern : Kernel) (n : Nat)
    (h : n = 0 ∨ kern.grants n = false) :
    Buffer_alloc_writeable kern n = .error (.assertion "result != MAP_FAILED") := by
  unfold Buffer_alloc_writeable
  rw [if_pos h]

theorem toUword_one : toUword 1 = 1 := by decide

theorem newCapacity_one (capacity : Nat) :
    newCapacity capacity 1 = toUword (max (toWord ((capacity * 2 % 2 ^ 64 : Nat) : Int))
      (toWord (((capacity + 1) % 2 ^ 64 : Nat) : Int))) := by
  unfold newCapacity
  rw [toUword_one]

/-- What `Kernel.GrantsGrowth` gives for a shorter append. -/
theorem Kernel.GrantsGrowth.mono {kern : Kernel} {buf : Buffer} {extra less : Nat}
    (h : kern.GrantsGrowth buf extra) (hle : less ≤ extra) : kern.GrantsGrowth buf less := by
  intro hfit n hn1 hn2
  exact h (by omega) n hn1 (by omega)

/-- What `Kernel.GrantsGrowth` gives for the rest of an append, after `done` bytes. -/
theorem Kernel.GrantsGrowth.rest {kern : Kernel} {buf buf1 : Buffer} (done extra : Nat)
    (h : kern.GrantsGrowth buf (done + extra)) (hlen : buf1.len = buf.len + done)
    (hcap : buf.capacity ≤ buf1.capacity) : kern.GrantsGrowth buf1 extra := by
  intro hfit n hn1 hn2
  exact h (by omega) n (by omega) (by rw [hlen] at hn2; omega)

/-- No growth is asked for when the bytes fit. -/
theorem Kernel.GrantsGrowth.of_fits (kern : Kernel) (buf : Buffer) (extra : Nat)
    (h : buf.len + extra ≤ buf.capacity) : kern.GrantsGrowth buf extra := by
  intro hfit
  omega

/-- A kernel that grants every request up to twice the final length grants the growth. -/
theorem Kernel.GrantsGrowth.of_upTo (bound : Nat) (buf : Buffer) (extra : Nat)
    (h : 2 * (buf.len + extra) ≤ bound) : (Kernel.upTo bound).GrantsGrowth buf extra := by
  intro _ n _ hn
  show decide (n ≤ bound) = true
  exact decide_eq_true (by omega)

/-- What `Kernel.GrantsGrowth` gives for the next byte when the buffer is full. -/
theorem Kernel.GrantsGrowth.full {kern : Kernel} {buf : Buffer} {extra : Nat}
    (h : kern.GrantsGrowth buf extra) (h1 : 1 ≤ extra) (hpos : 0 < buf.capacity)
    (hlen : buf.len + 1 < 2 ^ 63) (hfull : buf.len = buf.capacity) :
    kern.grants (newCapacity buf.capacity 1) = true := by
  obtain ⟨hge, hle⟩ := new_capacity_bounds buf.capacity 1 hpos (by omega)
  rw [newCapacity_one]
  exact h (by omega) _ (by omega) (by omega)

theorem Buffer_ensure_capacity_fits (kern : Kernel) (a : Int) (buf : Buffer)
    (h : (buf.len + toUword a) % 2 ^ 64 ≤ buf.capacity) :
    Buffer_ensure_capacity kern a buf = (.ok (), buf) := by
  unfold Buffer_ensure_capacity
  rw [if_pos h]

theorem Buffer_ensure_capacity_grows (kern : Kernel) (a : Int) (buf : Buffer) (n : Nat)
    (h : ¬ (buf.len + toUword a) % 2 ^ 64 ≤ buf.capacity)
    (hn : toUword (max (toWord ((buf.capacity * 2 % 2 ^ 64 : Nat) : Int))
        (toWord (((buf.capacity + toUword a) % 2 ^ 64 : Nat) : Int))) = n)
    (hn0 : n ≠ 0) (hgr : kern.grants n = true) (hsrc : buf.len ≤ buf.address.length)
    (hdst : buf.len ≤ n) (hcap : buf.capacity ≠ 0) :
    Buffer_ensure_capacity kern a buf =
      (.ok (), { buf with
        address := buf.address.take buf.len ++ (List.replicate n 0).drop buf.len,
        capacity := n }) := by
  unfold Buffer_ensure_capacity
  rw [if_neg h]
  simp only [hn]
  have halloc : Buffer_alloc_writeable kern n = .ok (List.replicate n 0) :=
    Buffer_alloc_writeable_ok kern n hn0 hgr
  have hcopy : memcpy (List.replicate n 0) buf.address buf.len =
      .ok (buf.address.take buf.len ++ (List.replicate n 0).drop buf.len) := by
    unfold memcpy
    rw [if_pos ⟨hsrc, by rw [List.length_replicate]; exact hdst⟩]
  have hunmap : munmap buf.capacity = 0 := by
    unfold munmap
    rw [if_neg hcap]
  rw [halloc]
  simp only [hcopy, hunmap, not_true_eq_false, if_false]

theorem Buffer_at_put8_ok (pos b : Nat) (buf : Buffer) (h : pos < buf.address.length) :
    Buffer_at_put8 pos b buf = (.ok (), { buf with address := buf.address.set pos b }) := by
  unfold Buffer_at_put8
  rw [if_pos h]

/-- One `Buffer_write8` on a live buffer whose length stays below `2^63`: it succeeds,
the byte lands right after the bytes already written, and nothing else changes except
that the capacity may have grown. -/
theorem Buffer_write8_ok (kern : Kernel) (b : Nat) (buf : Buffer) (hlive : buf.Live)
    (hlen : buf.len + 1 < 2 ^ 63)
    (hgrant : buf.len = buf.capacity → kern.grants (newCapacity buf.capacity 1) = true) :
    ∃ buf1, Buffer_write8 kern b buf = (.ok (), buf1) ∧ buf1.Live ∧ buf1.len = buf.len + 1 ∧
      buf1.bytes = buf.bytes ++ [b] ∧ buf1.state = buf.state ∧
      buf.capacity ≤ buf1.capacity := by
  obtain ⟨hreg, hpos, hle⟩ := hlive
  have hone : toUword 1 = 1 := by decide
  have hwrap : (buf.len + 1) % 2 ^ 64 = buf.len + 1 := Nat.mod_eq_of_lt (by omega)
  by_cases hfit : (buf.len + toUword 1) % 2 ^ 64 ≤ buf.capacity
  · have hens := Buffer_ensure_capacity_fits kern 1 buf hfit
    rw [hone, hwrap] at hfit
    have hin : buf.len < buf.address.length := by omega
    have hinc : Buffer_len_postinc buf = (.ok buf.len, { buf with len := buf.len + 1 }) := by
      unfold Buffer_len_postinc
      rw [hwrap]
    refine ⟨{ buf with address := buf.address.set buf.len b, len := buf.len + 1 }, ?_, ?_, rfl, ?_,
      rfl, le_refl _⟩
    · unfold Buffer_write8
      rw [Exec.bind_of_ok hens, Exec.bind_of_ok hinc]
      exact Buffer_at_put8_ok _ _ _ hin
    · exact ⟨by simp [hreg], hpos, hfit⟩
    · simp only [Buffer.bytes]
      exact List.take_succ_set_self _ _ _ hin
  · have hfit2 := hfit
    rw [hone, hwrap] at hfit2
    have hfull : buf.len = buf.capacity := by omega
    obtain ⟨hge, hgt⟩ := new_capacity_bounds buf.capacity 1 hpos (by omega)
    generalize hn : toUword (max (toWord ((buf.capacity * 2 % 2 ^ 64 : Nat) : Int))
        (toWord (((buf.capacity + 1) % 2 ^ 64 : Nat) : Int))) = n at hge hgt
    have hgr : kern.grants n = true := by
      rw [← hn, ← newCapacity_one]
      exact hgrant hfull
    have hens := Buffer_ensure_capacity_grows kern 1 buf n hfit (by rw [hone]; exact hn)
      (by omega) hgr (by omega) (by omega) (by omega)
    have hlen1 : (buf.address.take buf.len ++ (List.replicate n 0).drop buf.len).length = n := by
      simp only [List.length_append, List.length_take, List.length_drop, List.length_replicate]
      omega
    have hin : buf.len <
        (buf.address.take buf.len ++ (List.replicate n 0).drop buf.len).length := by
      rw [hlen1]; omega
    have hinc : Buffer_len_postinc { buf with
          address := buf.address.take buf.len ++ (List.replicate n 0).drop buf.len,
          capacity := n } =
        (.ok buf.len, { buf with
          address := buf.address.take buf.len ++ (List.replicate n 0).drop buf.len,
          capacity := n, len := buf.len + 1 }) := by
      unfold Buffer_len_postinc
      dsimp only
      rw [hwrap]
    refine ⟨{ buf with
        address := (buf.address.take buf.len ++ (List.replicate n 0).drop buf.len).set buf.len b,
        len := buf.len + 1, capacity := n }, ?_, ?_, rfl, ?_, rfl, by simp only; omega⟩
    · unfold Buffer_write8
      rw [Exec.bind_of_ok hens, Exec.bind_of_ok hinc]
      exact Buffer_at_put8_ok _ _ _ hin
    · exact ⟨by simp only [List.length_set]; exact hlen1, by simp only; omega, by simp only; omega⟩
    · simp only [Buffer.bytes]
      rw [List.take_succ_set_self _ _ _ hin]
      have hkeep : List.take buf.len
          (buf.address.take buf.len ++ (List.replicate n 0).drop buf.len) =
          buf.address.take buf.len := by
        rw [List.take_append_of_le_length (by simp only [List.length_take]; omega)]
        rw [List.take_take, Nat.min_self]
      rw [hkeep]

theorem le32_toInt32 (x : Int) : le32 (toInt32 x) = le32 x := by
  have h : toInt32 x % 2 ^ 32 = x % 2 ^ 32 := by unfold toInt32; omega
  unfold le32
  rw [h]

/-- The byte that iteration `i` of the loop of `Buffer_write32` passes to `Buffer_write8`. -/
theorem write32_byte (value : Int) :
    toByte (wordAnd (wordShr value (0 * kBitsPerByte)) 0xff) = (value % 2 ^ 32).toNat % 256 ∧
    toByte (wordAnd (wordShr value ((0 + 1) * kBitsPerByte)) 0xff) =
      (value % 2 ^ 32).toNat / 2 ^ 8 % 256 ∧
    toByte (wordAnd (wordShr value ((0 + 1 + 1) * kBitsPerByte)) 0xff) =
      (value % 2 ^ 32).toNat / 2 ^ 16 % 256 ∧
    toByte (wordAnd (wordShr value ((0 + 1 + 1 + 1) * kBitsPerByte)) 0xff) =
      (value % 2 ^ 32).toNat / 2 ^ 24 % 256 := by
  simp only [wordAnd_0xff, wordShr_eq_div, kBitsPerByte, toByte]
  refine ⟨?_, ?_, ?_, ?_⟩ <;> omega

/-- `Buffer_write32` on a live buffer appends the four bytes of the value, low byte first. -/
theorem Buffer_write32_ok (kern : Kernel) (value : Int) (buf : Buffer) (hlive : buf.Live)
    (hlen : buf.len + 4 < 2 ^ 63) (hg : kern.GrantsGrowth buf 4) :
    ∃ buf1, Buffer_write32 kern value buf = (.ok (), buf1) ∧ buf1.Live ∧ buf1.len = buf.len + 4 ∧
      buf1.bytes = buf.bytes ++ le32 value ∧ buf1.state = buf.state ∧
      buf.capacity ≤ buf1.capacity := by
  obtain ⟨hb0, hb1, hb2, hb3⟩ := write32_byte value
  obtain ⟨b1, e1, l1, n1, y1, s1, c1⟩ := Buffer_write8_ok kern
    (toByte (wordAnd (wordShr value (0 * kBitsPerByte)) 0xff)) buf hlive (by omega)
    (hg.full (by omega) hlive.2.1 (by omega))
  have g1 : kern.GrantsGrowth b1 3 := Kernel.GrantsGrowth.rest 1 3 hg n1 c1
  obtain ⟨b2, e2, l2, n2, y2, s2, c2⟩ := Buffer_write8_ok kern
    (toByte (wordAnd (wordShr value ((0 + 1) * kBitsPerByte)) 0xff)) b1 l1 (by omega)
    (g1.full (by omega) l1.2.1 (by omega))
  have g2 : kern.GrantsGrowth b2 2 := Kernel.GrantsGrowth.rest 1 2 g1 n2 c2
  obtain ⟨b3, e3, l3, n3, y3, s3, c3⟩ := Buffer_write8_ok kern
    (toByte (wordAnd (wordShr value ((0 + 1 + 1) * kBitsPerByte)) 0xff)) b2 l2 (by omega)
    (g2.full (by omega) l2.2.1 (by omega))
  have g3 : kern.GrantsGrowth b3 1 := Kernel.GrantsGrowth.rest 1 1 g2 n3 c3
  obtain ⟨b4, e4, l4, n4, y4, s4, c4⟩ := Buffer_write8_ok kern
    (toByte (wordAnd (wordShr value ((0 + 1 + 1 + 1) * kBitsPerByte)) 0xff)) b3 l3 (by omega)
    (g3.full (by omega) l3.2.1 (by omega))
  refine ⟨b4, ?_, l4, by omega, ?_, by rw [s4, s3, s2, s1], by omega⟩
  · unfold Buffer_write32
    simp only [Buffer_write32_loop]
    rw [Exec.bind_of_ok e1, Exec.bind_of_ok e2, Exec.bind_of_ok e3, Exec.bind_of_ok e4]
    rfl
  · rw [y4, y3, y2, y1, hb0, hb1, hb2, hb3]
    simp [le32]

/-- `Emit_mov_reg_imm32` on a live buffer appends the seven bytes of the instruction. -/
theorem Emit_mov_reg_imm32_ok (kern : Kernel) (dst : Register) (src : Int) (buf : Buffer)
    (hlive : buf.Live) (hlen : buf.len + 7 < 2 ^ 63) (hg : kern.GrantsGrowth buf 7) :
    ∃ buf1, Emit_mov_reg_imm32 kern dst src buf = (.ok (), buf1) ∧ buf1.Live ∧
      buf1.len = buf.len + 7 ∧
      buf1.bytes = buf.bytes ++ ([0x48, 0xc7, 0xc0 + dst.val] ++ le32 src) ∧
      buf1.state = buf.state ∧ buf.capacity ≤ buf1.capacity := by
  obtain ⟨b1, e1, l1, n1, y1, s1, c1⟩ := Buffer_write8_ok kern kRexPrefix buf hlive (by omega)
    (hg.full (by omega) hlive.2.1 (by omega))
  have g1 : kern.GrantsGrowth b1 6 := Kernel.GrantsGrowth.rest 1 6 hg n1 c1
  obtain ⟨b2, e2, l2, n2, y2, s2, c2⟩ := Buffer_write8_ok kern (toByte 0xc7) b1 l1 (by omega)
    (g1.full (by omega) l1.2.1 (by omega))
  have g2 : kern.GrantsGrowth b2 5 := Kernel.GrantsGrowth.rest 1 5 g1 n2 c2
  obtain ⟨b3, e3, l3, n3, y3, s3, c3⟩ :=
    Buffer_write8_ok kern (toByte (0xc0 + (dst.val : Int))) b2 l2 (by omega)
      (g2.full (by omega) l2.2.1 (by omega))
  have g3 : kern.GrantsGrowth b3 4 := Kernel.GrantsGrowth.rest 1 4 g2 n3 c3
  obtain ⟨b4, e4, l4, n4, y4, s4, c4⟩ := Buffer_write32_ok kern src b3 l3 (by omega) g3
  have hreg : toByte (0xc0 + (dst.val : Int)) = 0xc0 + dst.val := by
    cases dst <;> decide
  refine ⟨b4, ?_, l4, by omega, ?_, by rw [s4, s3, s2, s1], by omega⟩
  · unfold Emit_mov_reg_imm32
    rw [Exec.bind_of_ok e1, Exec.bind_of_ok e2, Exec.bind_of_ok e3]
    exact e4
  · rw [y4, y3, y2, y1, hreg]
    have h1 : kRexPrefix = 0x48 := rfl
    have h2 : toByte 0xc7 = 0xc7 := by decide
    rw [h1, h2]
    simp

/-- `Emit_ret` on a live buffer appends the byte `0xc3`. -/
theorem Emit_ret_ok (kern : Kernel) (buf : Buffer) (hlive : buf.Live)
    (hlen : buf.len + 1 < 2 ^ 63) (hg : kern.GrantsGrowth buf 1) :
    ∃ buf1, Emit_ret kern buf = (.ok (), buf1) ∧ buf1.Live ∧ buf1.len = buf.len + 1 ∧
      buf1.bytes = buf.bytes ++ [0xc3] ∧ buf1.state = buf.state ∧
      buf.capacity ≤ buf1.capacity := by
  have h : toByte 0xc3 = 0xc3 := by decide
  unfold Emit_ret
  rw [h]
  exact Buffer_write8_ok kern 0xc3 buf hlive hlen (hg.full (by omega) hlive.2.1 hlen)

/-! ## Running the compiler -/

theorem Compile_expr_integer (kern : Kernel) (node w : Int) (hint : AST_is_integer node = true)
    (hw : Object_encode_integer (AST_get_integer node) = .ok w) :
    Compile_expr kern node = emitLiteral kern w := by
  funext buf
  unfold Compile_expr
  rw [if_pos hint]
  have h : Exec.ofExcept (Object_encode_integer (AST_get_integer node)) buf = (.ok w, buf) := by
    unfold Exec.ofExcept
    rw [hw]
  rw [Exec.bind_of_ok h]
  rfl

theorem Compile_expr_integer_fault (kern : Kernel) (node : Int) (e : Fault)
    (hint : AST_is_integer node = true)
    (hw : Object_encode_integer (AST_get_integer node) = .error e) (buf : Buffer) :
    Compile_expr kern node buf = (.error e, buf) := by
  unfold Compile_expr
  rw [if_pos hint]
  have h : Exec.ofExcept (Object_encode_integer (AST_get_integer node)) buf = (.error e, buf) := by
    unfold Exec.ofExcept
    rw [hw]
  rw [Exec.bind_of_error h]

theorem Compile_expr_char (kern : Kernel) (node : Int) (hint : AST_is_integer node = false)
    (hchar : AST_is_char node = true) :
    Compile_expr kern node = emitLiteral kern (Object_encode_char (AST_get_char node)) := by
  unfold Compile_expr
  rw [if_neg (by rw [hint]; decide), if_pos hchar]
  rfl

theorem Compile_expr_bool (kern : Kernel) (node : Int) (hint : AST_is_integer node = false)
    (hchar : AST_is_char node = false) (hbool : AST_is_bool node = true) :
    Compile_expr kern node = emitLiteral kern (Object_encode_bool (AST_get_bool node)) := by
  unfold Compile_expr
  rw [if_neg (by rw [hint]; decide), if_neg (by rw [hchar]; decide), if_pos hbool]
  rfl

theorem Compile_expr_other (kern : Kernel) (node : Int) (hint : AST_is_integer node = false)
    (hchar : AST_is_char node = false) (hbool : AST_is_bool node = false) :
    Compile_expr kern node = Exec.fail (.assertion "unexpected node type") := by
  unfold Compile_expr
  rw [if_neg (by rw [hint]; decide), if_neg (by rw [hchar]; decide),
    if_neg (by rw [hbool]; decide)]

theorem emitLiteral_ok (kern : Kernel) (imm : Int) (buf : Buffer) (hlive : buf.Live)
    (hlen : buf.len + 7 < 2 ^ 63) (hg : kern.GrantsGrowth buf 7) :
    ∃ buf1, emitLiteral kern imm buf = (.ok 0, buf1) ∧ buf1.Live ∧ buf1.len = buf.len + 7 ∧
      buf1.bytes = buf.bytes ++ ([0x48, 0xc7, 0xc0] ++ le32 imm) ∧
      buf1.state = buf.state ∧ buf.capacity ≤ buf1.capacity := by
  obtain ⟨b1, e1, l1, n1, y1, s1, c1⟩ :=
    Emit_mov_reg_imm32_ok kern .kRax (toInt32 imm) buf hlive hlen hg
  refine ⟨b1, ?_, l1, n1, ?_, s1, c1⟩
  · unfold emitLiteral
    rw [Exec.bind_of_ok e1]
    rfl
  · rw [y1, le32_toInt32]
    rfl

/-- `Compile_function` after a successful `Compile_expr` that returned 0: the return
instruction follows. -/
theorem Compile_function_ok (kern : Kernel) (node : Int) (buf buf1 : Buffer)
    (hexpr : Compile_expr kern node buf = (.ok 0, buf1)) (hlive : buf1.Live)
    (hlen : buf1.len + 1 < 2 ^ 63) (hg : kern.GrantsGrowth buf1 1) :
    ∃ buf2, Compile_function kern node buf = (.ok 0, buf2) ∧ buf2.Live ∧
      buf2.len = buf1.len + 1 ∧
      buf2.bytes = buf1.bytes ++ [0xc3] ∧ buf2.state = buf1.state ∧
      buf1.capacity ≤ buf2.capacity := by
  obtain ⟨b2, e2, l2, n2, y2, s2, c2⟩ := Emit_ret_ok kern buf1 hlive hlen hg
  refine ⟨b2, ?_, l2, n2, y2, s2, c2⟩
  unfold Compile_function
  rw [Exec.bind_of_ok hexpr]
  simp only [ne_eq, not_true_eq_false, if_false]
  rw [Exec.bind_of_ok e2]
  rfl

theorem Compile_function_fault (kern : Kernel) (node : Int) (buf buf1 : Buffer) (e : Fault)
    (hexpr : Compile_expr kern node buf = (.error e, buf1)) :
    Compile_function kern node buf = (.error e, buf1) := by
  unfold Compile_function
  rw [Exec.bind_of_error hexpr]

/-- A literal compiled into a live buffer: `mov rax, imm32` and `ret` follow the bytes
already there. -/
theorem Compile_function_literal (kern : Kernel) (node imm : Int) (buf : Buffer)
    (hexpr : Compile_expr kern node = emitLiteral kern imm) (hlive : buf.Live)
    (hlen : buf.len + 8 < 2 ^ 63) (hg : kern.GrantsGrowth buf 8) :
    ∃ buf2, Compile_function kern node buf = (.ok 0, buf2) ∧ buf2.Live ∧
      buf2.len = buf.len + 8 ∧
      buf2.bytes = buf.bytes ++ ([0x48, 0xc7, 0xc0] ++ le32 imm ++ [0xc3]) ∧
      buf2.state = buf.state ∧ buf.capacity ≤ buf2.capacity := by
  obtain ⟨b1, e1, l1, n1, y1, s1, c1⟩ :=
    emitLiteral_ok kern imm buf hlive (by omega) (hg.mono (by omega))
  rw [← hexpr] at e1
  obtain ⟨b2, e2, l2, n2, y2, s2, c2⟩ := Compile_function_ok kern node buf b1 e1 l1 (by omega)
    (Kernel.GrantsGrowth.rest 7 1 hg n1 c1)
  refine ⟨b2, e2, l2, by omega, ?_, by rw [s2, s1], by omega⟩
  rw [y2, y1]
  simp

theorem Buffer_init_ok (kern : Kernel) (capacity : Nat) (h : 0 < capacity)
    (hgr : kern.grants capacity = true) :
    Buffer_init kern capacity = .ok (emptyBuffer capacity) := by
  unfold Buffer_init
  rw [Buffer_alloc_writeable_ok kern capacity (by omega) hgr]
  rfl

/-- `Buffer_init` yields a buffer only for a capacity that is not zero and that the
kernel grants, and then it is the empty buffer of that capacity. -/
theorem Buffer_init_inv (kern : Kernel) (capacity : Nat) (buf : Buffer)
    (h : Buffer_init kern capacity = .ok buf) :
    0 < capacity ∧ kern.grants capacity = true ∧ buf = emptyBuffer capacity := by
  by_cases hc : capacity = 0 ∨ kern.grants capacity = false
  · unfold Buffer_init at h
    rw [Buffer_alloc_writeable_refused kern capacity hc] at h
    exact Except.noConfusion h
  · push_neg at hc
    have hgr : kern.grants capacity = true := by
      cases hk : kern.grants capacity with
      | true => rfl
      | false => exact absurd hk hc.2
    rw [Buffer_init_ok kern capacity (by omega) hgr] at h
    exact ⟨by omega, hgr, (Except.ok.inj h).symm⟩

theorem emptyBuffer_live (capacity : Nat) (h : 0 < capacity) : (emptyBuffer capacity).Live :=
  ⟨List.length_replicate _ _, h, Nat.zero_le _⟩

/-- A routine `mov rax, imm32; ret` whose immediate was taken from a word that fits 32
bits returns that word. -/
theorem runRoutine_of_fits (imm : Int) (h0 : -2 ^ 31 ≤ imm) (h1 : imm < 2 ^ 31) :
    runRoutine ([0x48, 0xc7, 0xc0] ++ le32 imm ++ [0xc3]) = some imm := by
  simp only [le32, List.cons_append, List.nil_append, runRoutine, imm32SignExtended, toInt32]
  refine congrArg some ?_
  omega

/-- A literal compiled into the empty buffer of capacity 8, which holds the routine
without growing: whatever the kernel grants, the routine returns the immediate when the
immediate fits 32 bits. -/
theorem compiled_literal_returns (kern : Kernel) (node imm : Int)
    (hexpr : Compile_expr kern node = emitLiteral kern imm) (h0 : -2 ^ 31 ≤ imm)
    (h1 : imm < 2 ^ 31) :
    ∃ buf1, Compile_function kern node (emptyBuffer 8) = (.ok 0, buf1) ∧
      runRoutine buf1.bytes = some imm := by
  obtain ⟨b2, e2, -, -, y2, -, -⟩ := Compile_function_literal kern node imm (emptyBuffer 8) hexpr
    (emptyBuffer_live 8 (by omega)) (by decide)
    (Kernel.GrantsGrowth.of_fits kern (emptyBuffer 8) 8 (by decide))
  refine ⟨b2, e2, ?_⟩
  have hb : (emptyBuffer 8).bytes = [] := rfl
  rw [y2, hb, List.nil_append]
  exact runRoutine_of_fits imm h0 h1

/-- The integers whose compiled routine does return their encoding: those from `-2^29`
up to `2^29 - 1`, whose encoding fits the 32-bit immediate. -/
theorem compiled_small_integer_returns (kern : Kernel) (v : Int) (h0 : -2 ^ 29 ≤ v)
    (h1 : v < 2 ^ 29) :
    ∃ node buf1, AST_new_integer v = .ok node ∧
      Compile_function kern node (emptyBuffer 8) = (.ok 0, buf1) ∧
      runRoutine buf1.bytes = some node := by
  have hlo : kIntegerMin < v := by rw [kIntegerMin_eq]; omega
  have hhi : v < kIntegerMax := by rw [kIntegerMax_eq]; omega
  have henc := Object_encode_integer_of_range v hlo hhi
  obtain ⟨node, hnode, hget, hnode4⟩ := integer_round_trip_core v hlo hhi
  have hint : AST_is_integer node = true := by
    rw [AST_is_integer_iff, hnode4]; omega
  have hexpr : Compile_expr kern node = emitLiteral kern node :=
    Compile_expr_integer kern node node hint (by rw [hget, hnode4]; exact henc)
  obtain ⟨b2, e2, y2⟩ := compiled_literal_returns kern node node hexpr (by omega) (by omega)
  exact ⟨node, b2, hnode, e2, y2⟩

/-- The compiled routine of a character returns its encoding. -/
theorem compiled_char_returns (kern : Kernel) (c : Int) (hc0 : -128 ≤ c) (hc1 : c ≤ 127) :
    ∃ buf1, Compile_function kern (AST_new_char c) (emptyBuffer 8) = (.ok 0, buf1) ∧
      runRoutine buf1.bytes = some (Object_encode_char c) := by
  have henc := Object_encode_char_eq c hc0 hc1
  have hint : AST_is_integer (AST_new_char c) = false := by
    rw [← Bool.not_eq_true, AST_is_integer_iff, AST_new_char, henc]; omega
  have hchar : AST_is_char (AST_new_char c) = true := by
    rw [AST_is_char_iff, AST_new_char, henc]; omega
  have hget : AST_get_char (AST_new_char c) = c := Object_decode_encode_char c hc0 hc1
  have hexpr : Compile_expr kern (AST_new_char c) = emitLiteral kern (Object_encode_char c) := by
    rw [Compile_expr_char kern _ hint hchar, hget]
  exact compiled_literal_returns kern _ _ hexpr (by rw [henc]; omega) (by rw [henc]; omega)

/-- The compiled routine of a boolean returns its encoding. -/
theorem compiled_bool_returns (kern : Kernel) (b : Bool) :
    ∃ buf1, Compile_function kern (AST_new_bool b) (emptyBuffer 8) = (.ok 0, buf1) ∧
      runRoutine buf1.bytes = some (Object_encode_bool b) := by
  have hint : AST_is_integer (AST_new_bool b) = false := by cases b <;> decide
  have hchar : AST_is_char (AST_new_bool b) = false := by cases b <;> decide
  have hbool : AST_is_bool (AST_new_bool b) = true := by cases b <;> decide
  have hget : AST_get_bool (AST_new_bool b) = b := by cases b <;> decide
  have hexpr : Compile_expr kern (AST_new_bool b) = emitLiteral kern (Object_encode_bool b) := by
    rw [Compile_expr_bool kern _ hint hchar hbool, hget]
  exact compiled_literal_returns kern _ _ hexpr (by cases b <;> decide) (by cases b <;> decide)

/-- Outside the open range `Object_encode_integer` stops at one of its two assertions. -/
theorem Object_encode_integer_out_of_range (value : Int) :
    (kIntegerMax ≤ value → Object_encode_integer value = .error (.assertion "too big")) ∧
      (value ≤ kIntegerMin → Object_encode_integer value = .error (.assertion "too small")) := by
  refine ⟨?_, ?_⟩
  · intro h
    have h1 : ¬ value < kIntegerMax := by omega
    simp [Object_encode_integer, h1]
  · intro h
    have hm : kIntegerMin < kIntegerMax := by decide
    have h1 : value < kIntegerMax := by omega
    have h2 : ¬ value > kIntegerMin := by omega
    simp [Object_encode_integer, h1, h2]

/-! ## Claims about the tagged encoding -/

/-- C3. Integer round trip: for every `v` strictly between `kIntegerMin` and
`kIntegerMax`, `AST_new_integer v` yields a node, `AST_get_integer` of that node is `v`,
and `AST_get_integer` is the arithmetic right shift by `kIntegerShift = 2`. -/
theorem C3_integer_round_trip (v : Int) (hlo : kIntegerMin < v) (hhi : v < kIntegerMax) :
    ∃ node, AST_new_integer v = .ok node ∧ AST_get_integer node = v ∧
      AST_get_integer node = node >>> (2 : Nat) := by
  refine ⟨4 * v, Object_encode_integer_of_range v hlo hhi, ?_, by rfl⟩
  unfold AST_get_integer
  rw [wordShr_eq_div]
  unfold kIntegerShift
  omega

/-- C3 at `v = -123`. -/
theorem C3_integer_round_trip_witness :
    (kIntegerMin < -123 ∧ (-123 : Int) < kIntegerMax) ∧
      ∃ node, AST_new_integer (-123) = .ok node ∧ AST_get_integer node = -123 ∧
        AST_get_integer node = node >>> (2 : Nat) :=
  ⟨by decide, C3_integer_round_trip (-123) (by decide) (by decide)⟩

/-- C4 as stated fails: both endpoints of `[kIntegerMin, kIntegerMax]` are rejected by
the assertions of `Object_encode_integer`. -/
theorem C4_endpoints_rejected :
    Object_encode_integer kIntegerMax = .error (.assertion "too big") ∧
      Object_encode_integer kIntegerMin = .error (.assertion "too small") := by
  decide

/-- C4 amended. `Object_encode_integer value` succeeds exactly when `value` lies in the
open interval `kIntegerMin < value < kIntegerMax`; at `value ≥ kIntegerMax` the first
assertion fails, and at `value ≤ kIntegerMin` the second one does. -/
theorem C4_encode_integer_range (value : Int) :
    ((∃ w, Object_encode_integer value = .ok w) ↔ kIntegerMin < value ∧ value < kIntegerMax) ∧
      (kIntegerMax ≤ value → Object_encode_integer value = .error (.assertion "too big")) ∧
      (value ≤ kIntegerMin → Object_encode_integer value = .error (.assertion "too small")) := by
  refine ⟨⟨?_, ?_⟩, ?_, ?_⟩
  · rintro ⟨w, hw⟩
    unfold Object_encode_integer at hw
    by_cases h1 : value < kIntegerMax
    · by_cases h2 : value > kIntegerMin
      · exact ⟨h2, h1⟩
      · simp [h1, h2] at hw
    · simp [h1] at hw
  · rintro ⟨h2, h1⟩
    exact ⟨4 * value, Object_encode_integer_of_range value h2 h1⟩
  · intro h
    have h1 : ¬ value < kIntegerMax := by omega
    simp [Object_encode_integer, h1]
  · intro h
    have hm : kIntegerMin < kIntegerMax := by decide
    have h1 : value < kIntegerMax := by omega
    have h2 : ¬ value > kIntegerMin := by omega
    simp [Object_encode_integer, h1, h2]

/-- C4 amended, at the values `kIntegerMax`, `kIntegerMin` and `kIntegerMax - 1`. -/
theorem C4_encode_integer_range_witness :
    Object_encode_integer kIntegerMax = .error (.assertion "too big") ∧
      Object_encode_integer kIntegerMin = .error (.assertion "too small") ∧
      ∃ w, Object_encode_integer (kIntegerMax - 1) = .ok w :=
  ⟨(C4_encode_integer_range kIntegerMax).2.1 (le_refl _),
    (C4_encode_integer_range kIntegerMin).2.2 (le_refl _),
    (C4_encode_integer_range (kIntegerMax - 1)).1.2 (by decide)⟩

/-- C5. For every `v` accepted by `Object_encode_integer` the result is the exact
product `4 * v`, which fits the signed 64-bit word, and its two low bits are the integer
tag, so `AST_is_integer` holds of it. -/
theorem C5_encode_integer_exact (v : Int) (hlo : kIntegerMin < v) (hhi : v < kIntegerMax) :
    Object_encode_integer v = .ok (4 * v) ∧ (-2 ^ 63 ≤ 4 * v ∧ 4 * v < 2 ^ 63) ∧
      wordAnd (4 * v) kIntegerTagMask = kIntegerTag ∧ AST_is_integer (4 * v) = true := by
  have henc := Object_encode_integer_of_range v hlo hhi
  rw [kIntegerMin_eq] at hlo
  rw [kIntegerMax_eq] at hhi
  refine ⟨henc, ⟨by omega, by omega⟩, ?_, ?_⟩
  · rw [wordAnd_kIntegerTagMask]
    unfold kIntegerTag
    omega
  · rw [AST_is_integer_iff]
    omega

/-- C5 at `v = -1`, with the test vectors of the source: `0`, `1`, `10` and `-1` encode
to `0x0`, `0x4`, `0x28` and the word of pattern `0xFFFFFFFFFFFFFFFC`. -/
theorem C5_encode_integer_exact_witness :
    (kIntegerMin < -1 ∧ (-1 : Int) < kIntegerMax) ∧
      (Object_encode_integer (-1) = .ok (4 * -1) ∧ (-2 ^ 63 ≤ 4 * (-1 : Int) ∧ 4 * (-1 : Int) < 2 ^ 63) ∧
        wordAnd (4 * -1) kIntegerTagMask = kIntegerTag ∧ AST_is_integer (4 * -1) = true) ∧
      (Object_encode_integer 0 = .ok 0x0 ∧ Object_encode_integer 1 = .ok 0x4 ∧
        Object_encode_integer 10 = .ok 0x28 ∧
        Object_encode_integer (-1) = .ok (toWord 0xfffffffffffffffc)) :=
  ⟨by decide, C5_encode_integer_exact (-1) (by decide) (by decide), by decide⟩

/-- C6. The tags of distinct kinds never collide: the node of an in-range integer
satisfies `AST_is_integer` only, the node of a character `AST_is_char` only, the node of
a boolean `AST_is_bool` only, and the nil node `AST_is_nil` only; and of an arbitrary
word `n` no two of the four predicates hold together. -/
theorem C6_tags_disjoint (v c n : Int) (b : Bool) (hlo : kIntegerMin < v) (hhi : v < kIntegerMax)
    (hc0 : -128 ≤ c) (hc1 : c ≤ 127) :
    (∃ node, AST_new_integer v = .ok node ∧ AST_is_integer node = true ∧
        AST_is_char node = false ∧ AST_is_bool node = false ∧ AST_is_nil node = false) ∧
      (AST_is_integer (AST_new_char c) = false ∧ AST_is_char (AST_new_char c) = true ∧
        AST_is_bool (AST_new_char c) = false ∧ AST_is_nil (AST_new_char c) = false) ∧
      (AST_is_integer (AST_new_bool b) = false ∧ AST_is_char (AST_new_bool b) = false ∧
        AST_is_bool (AST_new_bool b) = true ∧ AST_is_nil (AST_new_bool b) = false) ∧
      (AST_is_integer AST_nil = false ∧ AST_is_char AST_nil = false ∧
        AST_is_bool AST_nil = false ∧ AST_is_nil AST_nil = true) ∧
      (¬ (AST_is_integer n = true ∧ AST_is_char n = true) ∧
        ¬ (AST_is_integer n = true ∧ AST_is_bool n = true) ∧
        ¬ (AST_is_integer n = true ∧ AST_is_nil n = true) ∧
        ¬ (AST_is_char n = true ∧ AST_is_bool n = true) ∧
        ¬ (AST_is_char n = true ∧ AST_is_nil n = true) ∧
        ¬ (AST_is_bool n = true ∧ AST_is_nil n = true)) := by
  refine ⟨⟨4 * v, Object_encode_integer_of_range v hlo hhi, ?_, ?_, ?_, ?_⟩,
    ⟨?_, ?_, ?_, ?_⟩, ?_, by decide, ?_⟩
  · rw [AST_is_integer_iff]; omega
  · rw [← Bool.not_eq_true, AST_is_char_iff]; omega
  · rw [← Bool.not_eq_true, AST_is_bool_iff]; omega
  · rw [← Bool.not_eq_true, AST_is_nil_iff]; omega
  · rw [← Bool.not_eq_true, AST_is_integer_iff, AST_new_char, Object_encode_char_eq c hc0 hc1]; omega
  · rw [AST_is_char_iff, AST_new_char, Object_encode_char_eq c hc0 hc1]; omega
  · rw [← Bool.not_eq_true, AST_is_bool_iff, AST_new_char, Object_encode_char_eq c hc0 hc1]; omega
  · rw [← Bool.not_eq_true, AST_is_nil_iff, AST_new_char, Object_encode_char_eq c hc0 hc1]; omega
  · cases b <;> decide
  · simp only [AST_is_integer_iff, AST_is_char_iff, AST_is_bool_iff, AST_is_nil_iff]
    omega

/-- C6 at the integer `-123`, the character `'a'`, the boolean `true` and the word `0x2f`. -/
theorem C6_tags_disjoint_witness :
    (kIntegerMin < -123 ∧ (-123 : Int) < kIntegerMax ∧ (-128 : Int) ≤ 97 ∧ (97 : Int) ≤ 127) ∧
      (∃ node, AST_new_integer (-123) = .ok node ∧ AST_is_integer node = true ∧
        AST_is_char node = false ∧ AST_is_bool node = false ∧ AST_is_nil node = false) ∧
      (AST_is_integer (AST_new_char 97) = false ∧ AST_is_char (AST_new_char 97) = true ∧
        AST_is_bool (AST_new_char 97) = false ∧ AST_is_nil (AST_new_char 97) = false) ∧
      (AST_is_integer 0x2f = true ∧ AST_is_char 0x2f = true → False) :=
  have h := C6_tags_disjoint (-123) 97 0x2f true (by decide) (by decide) (by decide) (by decide)
  ⟨by decide, h.1, h.2.1, h.2.2.2.2.1⟩

/-- C7. Character and boolean round trips: `Object_decode_char (Object_encode_char c)`
is `c` for each of the 256 values of `char`, those with the top bit set (the negative
ones) included; `Object_decode_bool (Object_encode_bool b)` is `b` for both booleans;
`true` encodes to `0x9f` and `false` to `0x1f`. -/
theorem C7_char_bool_round_trip (c : Int) (b : Bool) (hc0 : -128 ≤ c) (hc1 : c ≤ 127) :
    Object_decode_char (Object_encode_char c) = c ∧
      Object_decode_bool (Object_encode_bool b) = b ∧
      Object_encode_bool true = 0x9f ∧ Object_encode_bool false = 0x1f := by
  refine ⟨Object_decode_encode_char c hc0 hc1, ?_, by decide, by decide⟩
  cases b <;> decide

/-- C7 at the character of pattern `0xe9` (the `char` value `-23`) and `true`. -/
theorem C7_char_bool_round_trip_witness :
    ((-128 : Int) ≤ -23 ∧ (-23 : Int) ≤ 127) ∧
      Object_decode_char (Object_encode_char (-23)) = -23 ∧
      Object_decode_bool (Object_encode_bool true) = true ∧
      Object_encode_bool true = 0x9f ∧ Object_encode_bool false = 0x1f :=
  ⟨by decide, C7_char_bool_round_trip (-23) true (by decide) (by decide)⟩

/-! ## Claims about the emitter and the compiler -/

/-- C1. For every `v` strictly between `kIntegerMin` and `kIntegerMax`, every writable
live buffer (region of `capacity > 0` bytes, `len ≤ capacity`, `len + 8` below `2^63`)
and every kernel that grants the mappings the buffer has to ask for when the 8 bytes do
not fit, `Compile_function` on the node `AST_new_integer v` returns 0 and leaves the
bytes already written followed by `48 C7 C0`, the four little-endian bytes of the low 32
bits of `Object_encode_integer v`, and `C3`; the length grows by 8. -/
theorem C1_compile_integer (kern : Kernel) (v : Int) (buf : Buffer) (hlo : kIntegerMin < v)
    (hhi : v < kIntegerMax) (_hstate : buf.state = .kWriteable) (hlive : buf.Live)
    (hlen : buf.len + 8 < 2 ^ 63) (hgrant : kern.GrantsGrowth buf 8) :
    ∃ node w buf1, AST_new_integer v = .ok node ∧ Object_encode_integer v = .ok w ∧
      Compile_function kern node buf = (.ok 0, buf1) ∧
      buf1.bytes = buf.bytes ++ ([0x48, 0xc7, 0xc0] ++ le32 w ++ [0xc3]) ∧
      buf1.len = buf.len + 8 := by
  have henc := Object_encode_integer_of_range v hlo hhi
  obtain ⟨node, hnode, hget, -⟩ := integer_round_trip_core v hlo hhi
  have hnode4 : node = 4 * v := by
    unfold AST_new_integer at hnode
    rw [henc] at hnode
    exact (Except.ok.inj hnode).symm
  have hint : AST_is_integer node = true := by
    rw [AST_is_integer_iff, hnode4]; omega
  have hexpr : Compile_expr kern node = emitLiteral kern (4 * v) :=
    Compile_expr_integer kern node (4 * v) hint (by rw [hget]; exact henc)
  obtain ⟨b2, e2, -, n2, y2, -, -⟩ :=
    Compile_function_literal kern node (4 * v) buf hexpr hlive hlen hgrant
  exact ⟨node, 4 * v, b2, hnode, henc, e2, y2, n2⟩

/-- C1 at `v = 123` on the empty buffer of capacity 10, which holds the routine without
growing, under the kernel that refuses every request; with the two test vectors of the
source evaluated: `123` and `-123` compile to the byte sequences of the tests. -/
theorem C1_compile_integer_witness :
    (kIntegerMin < 123 ∧ (123 : Int) < kIntegerMax ∧ (emptyBuffer 10).state = .kWriteable ∧
        (emptyBuffer 10).Live ∧ (emptyBuffer 10).len + 8 < 2 ^ 63 ∧
        Kernel.refusing.GrantsGrowth (emptyBuffer 10) 8) ∧
      (∃ node w buf1, AST_new_integer 123 = .ok node ∧ Object_encode_integer 123 = .ok w ∧
        Compile_function Kernel.refusing node (emptyBuffer 10) = (.ok 0, buf1) ∧
        buf1.bytes = (emptyBuffer 10).bytes ++ ([0x48, 0xc7, 0xc0] ++ le32 w ++ [0xc3]) ∧
        buf1.len = (emptyBuffer 10).len + 8) ∧
      (AST_new_integer 123 = .ok 492 ∧
        (Compile_function Kernel.refusing 492 (emptyBuffer 10)).1 = .ok 0 ∧
        (Compile_function Kernel.refusing 492 (emptyBuffer 10)).2.bytes =
          [0x48, 0xc7, 0xc0, 0xec, 0x01, 0x00, 0x00, 0xc3] ∧
        AST_new_integer (-123) = .ok (-492) ∧
        (Compile_function Kernel.refusing (-492) (emptyBuffer 10)).1 = .ok 0 ∧
        (Compile_function Kernel.refusing (-492) (emptyBuffer 10)).2.bytes =
          [0x48, 0xc7, 0xc0, 0x14, 0xfe, 0xff, 0xff, 0xc3]) :=
  ⟨⟨by decide, by decide, by decide, by decide, by decide,
      Kernel.GrantsGrowth.of_fits Kernel.refusing (emptyBuffer 10) 8 (by decide)⟩,
    C1_compile_integer Kernel.refusing 123 (emptyBuffer 10) (by decide) (by decide) (by decide)
      (by decide) (by decide)
      (Kernel.GrantsGrowth.of_fits Kernel.refusing (emptyBuffer 10) 8 (by decide)),
    by decide!⟩

/-- C2 fails at the integer `2^29`, which lies inside the accepted range: on the empty
buffer of capacity 10, which holds the routine without growing, and whatever the kernel
grants, compilation succeeds, but the immediate written is `00 00 00 80`, which the load
sign-extends to `-2^31`, while `Object_encode_integer (2^29)` is `2^31`. -/
theorem C2_integer_immediate_truncated :
    (kIntegerMin < 2 ^ 29 ∧ (2 ^ 29 : Int) < kIntegerMax) ∧
      AST_new_integer (2 ^ 29) = .ok (2 ^ 31) ∧
      Object_encode_integer (2 ^ 29) = .ok (2 ^ 31) ∧
      imm32SignExtended 0x00 0x00 0x00 0x80 = -2 ^ 31 ∧
      imm32SignExtended 0x00 0x00 0x00 0x80 ≠ 2 ^ 31 ∧
      ∀ kern : Kernel,
        (Compile_function kern (2 ^ 31) (emptyBuffer 10)).1 = .ok 0 ∧
        (Compile_function kern (2 ^ 31) (emptyBuffer 10)).2.bytes =
          [0x48, 0xc7, 0xc0, 0x00, 0x00, 0x00, 0x80, 0xc3] ∧
        runRoutine (Compile_function kern (2 ^ 31) (emptyBuffer 10)).2.bytes =
          some (-2 ^ 31) := by
  refine ⟨by decide, by decide, by decide, by decide, by decide, fun kern => ?_⟩
  have hexpr : Compile_expr kern (2 ^ 31) = emitLiteral kern (2 ^ 31) :=
    Compile_expr_integer kern (2 ^ 31) (2 ^ 31) (by decide) (by decide)
  obtain ⟨b2, e2, -, -, y2, -, -⟩ := Compile_function_literal kern (2 ^ 31) (2 ^ 31)
    (emptyBuffer 10) hexpr (by decide) (by decide)
    (Kernel.GrantsGrowth.of_fits kern (emptyBuffer 10) 8 (by decide))
  have hbytes : b2.bytes = [0x48, 0xc7, 0xc0, 0x00, 0x00, 0x00, 0x80, 0xc3] := by
    rw [y2]
    decide
  rw [e2]
  refine ⟨rfl, hbytes, ?_⟩
  show runRoutine b2.bytes = some (-2 ^ 31)
  rw [hbytes]
  decide

/-- C8. For every character `c`, every writable live buffer (`len + 8` below `2^63`) and
every kernel that grants the mappings the buffer has to ask for when the 8 bytes do not
fit, `Compile_function` on `AST_new_char c` returns 0 and leaves the bytes already written
followed by `48 C7 C0`, the four little-endian bytes of the low 32 bits of
`Object_encode_char c`, and `C3`; the first two of those four bytes are `0F` and the
character code. -/
theorem C8_compile_char (kern : Kernel) (c : Int) (buf : Buffer) (hc0 : -128 ≤ c)
    (hc1 : c ≤ 127) (_hstate : buf.state = .kWriteable) (hlive : buf.Live)
    (hlen : buf.len + 8 < 2 ^ 63) (hgrant : kern.GrantsGrowth buf 8) :
    ∃ buf1, Compile_function kern (AST_new_char c) buf = (.ok 0, buf1) ∧
      buf1.bytes = buf.bytes ++ ([0x48, 0xc7, 0xc0] ++ le32 (Object_encode_char c) ++ [0xc3]) ∧
      (le32 (Object_encode_char c)).take 2 = [0x0f, toByte c] ∧
      buf1.len = buf.len + 8 := by
  have henc := Object_encode_char_eq c hc0 hc1
  have hint : AST_is_integer (AST_new_char c) = false := by
    rw [← Bool.not_eq_true, AST_is_integer_iff, AST_new_char, henc]; omega
  have hchar : AST_is_char (AST_new_char c) = true := by
    rw [AST_is_char_iff, AST_new_char, henc]; omega
  have hget : AST_get_char (AST_new_char c) = c := Object_decode_encode_char c hc0 hc1
  have hexpr : Compile_expr kern (AST_new_char c) = emitLiteral kern (Object_encode_char c) := by
    rw [Compile_expr_char kern _ hint hchar, hget]
  obtain ⟨b2, e2, -, n2, y2, -, -⟩ :=
    Compile_function_literal kern (AST_new_char c) (Object_encode_char c) buf hexpr hlive hlen
      hgrant
  refine ⟨b2, e2, y2, ?_, n2⟩
  rw [henc]
  simp only [le32, toByte, List.take_succ_cons, List.take_zero]
  refine congrArg₂ _ ?_ (congrArg₂ _ ?_ rfl) <;> omega

/-- C8 at `c = 'a'` on the empty buffer of capacity 1, under the kernel that grants the
requests of at most 16 bytes, with the bytes of the test; under the kernel that grants at
most 4 bytes the same call stops at the assertion on `MAP_FAILED` after the fourth byte. -/
theorem C8_compile_char_witness :
    ((-128 : Int) ≤ 97 ∧ (97 : Int) ≤ 127 ∧ (emptyBuffer 1).state = .kWriteable ∧
        (emptyBuffer 1).Live ∧ (emptyBuffer 1).len + 8 < 2 ^ 63 ∧
        (Kernel.upTo 16).GrantsGrowth (emptyBuffer 1) 8) ∧
      (∃ buf1, Compile_function (Kernel.upTo 16) (AST_new_char 97) (emptyBuffer 1) =
          (.ok 0, buf1) ∧
        buf1.bytes = (emptyBuffer 1).bytes ++
          ([0x48, 0xc7, 0xc0] ++ le32 (Object_encode_char 97) ++ [0xc3]) ∧
        (le32 (Object_encode_char 97)).take 2 = [0x0f, toByte 97] ∧
        buf1.len = (emptyBuffer 1).len + 8) ∧
      ((Compile_function (Kernel.upTo 16) (AST_new_char 97) (emptyBuffer 1)).1 = .ok 0 ∧
        (Compile_function (Kernel.upTo 16) (AST_new_char 97) (emptyBuffer 1)).2.bytes =
          [0x48, 0xc7, 0xc0, 0x0f, 0x61, 0x00, 0x00, 0xc3] ∧
        Compile_function (Kernel.upTo 4) (AST_new_char 97) (emptyBuffer 1) =
          (.error (.assertion "result != MAP_FAILED"),
            ⟨[0x48, 0xc7, 0xc0, 0x0f], .kWriteable, 4, 4⟩)) :=
  ⟨⟨by decide, by decide, by decide, by decide, by decide,
      Kernel.GrantsGrowth.of_upTo 16 (emptyBuffer 1) 8 (by decide)⟩,
    C8_compile_char (Kernel.upTo 16) 97 (emptyBuffer 1) (by decide) (by decide) (by decide)
      (by decide) (by decide) (Kernel.GrantsGrowth.of_upTo 16 (emptyBuffer 1) 8 (by decide)),
    by decide!⟩

/-- C9. Compiling an unrecognized node fails without output, whatever the kernel: when none of
`AST_is_integer`, `AST_is_char`, `AST_is_bool` holds of the node, `Compile_expr` ends
with the failed assertion "unexpected node type" instead of a status, the buffer
(address, state, length, capacity) is the one it was given, and `Compile_function` ends
the same way, the return byte not appended. -/
theorem C9_compile_unrecognized (kern : Kernel) (node : Int) (buf : Buffer)
    (hint : AST_is_integer node = false) (hchar : AST_is_char node = false)
    (hbool : AST_is_bool node = false) :
    Compile_expr kern node buf = (.error (.assertion "unexpected node type"), buf) ∧
      Compile_function kern node buf = (.error (.assertion "unexpected node type"), buf) := by
  have h : Compile_expr kern node buf = (.error (.assertion "unexpected node type"), buf) := by
    rw [Compile_expr_other kern node hint hchar hbool]
    rfl
  exact ⟨h, Compile_function_fault kern node buf buf _ h⟩

/-- C9 at the nil node `0x2f` and a buffer that already holds three bytes. -/
theorem C9_compile_unrecognized_witness :
    (AST_is_integer AST_nil = false ∧ AST_is_char AST_nil = false ∧
        AST_is_bool AST_nil = false ∧ AST_nil = 0x2f) ∧
      Compile_expr (Kernel.upTo 16) AST_nil ⟨[1, 2, 3, 0], .kWriteable, 3, 4⟩ =
        (.error (.assertion "unexpected node type"), ⟨[1, 2, 3, 0], .kWriteable, 3, 4⟩) ∧
      Compile_function (Kernel.upTo 16) AST_nil ⟨[1, 2, 3, 0], .kWriteable, 3, 4⟩ =
        (.error (.assertion "unexpected node type"), ⟨[1, 2, 3, 0], .kWriteable, 3, 4⟩) :=
  ⟨by decide,
    C9_compile_unrecognized (Kernel.upTo 16) AST_nil ⟨[1, 2, 3, 0], .kWriteable, 3, 4⟩
      (by decide) (by decide) (by decide)⟩

/-- C10. For every register `r` (index 0 to 7), every 32-bit immediate, every writable
live buffer (`len + 7` below `2^63`) and every kernel that grants the mappings the buffer
has to ask for when the 7 bytes do not fit (allocation is the one way these emitters can
fail), `Emit_mov_reg_imm32` appends exactly the
seven bytes `48 C7 (C0 + r)` and the immediate in little-endian order, `C0 + r` fits a
byte, `Emit_ret` appends exactly the byte `C3`, and both leave the bytes written before
as they were. -/
theorem C10_emit_appends (kern : Kernel) (r : Register) (imm : Int) (buf : Buffer)
    (_himm0 : -2 ^ 31 ≤ imm) (_himm1 : imm < 2 ^ 31)
    (_hstate : buf.state = .kWriteable) (hlive : buf.Live) (hlen : buf.len + 7 < 2 ^ 63)
    (hgrant : kern.GrantsGrowth buf 7) :
    (∃ buf1, Emit_mov_reg_imm32 kern r imm buf = (.ok (), buf1) ∧
        buf1.bytes = buf.bytes ++ [0x48, 0xc7, 0xc0 + r.val,
          (imm % 2 ^ 32).toNat % 256, (imm % 2 ^ 32).toNat / 2 ^ 8 % 256,
          (imm % 2 ^ 32).toNat / 2 ^ 16 % 256, (imm % 2 ^ 32).toNat / 2 ^ 24 % 256] ∧
        buf1.len = buf.len + 7 ∧ buf1.bytes.take buf.len = buf.bytes) ∧
      (r.val ≤ 7 ∧ 0xc0 + r.val < 256) ∧
      (∃ buf2, Emit_ret kern buf = (.ok (), buf2) ∧ buf2.bytes = buf.bytes ++ [0xc3] ∧
        buf2.len = buf.len + 1 ∧ buf2.bytes.take buf.len = buf.bytes) := by
  have hbl : buf.bytes.length = buf.len := by
    obtain ⟨hreg, -, hle⟩ := hlive
    simp only [Buffer.bytes, List.length_take]
    omega
  obtain ⟨b1, e1, -, n1, y1, -, -⟩ := Emit_mov_reg_imm32_ok kern r imm buf hlive hlen hgrant
  obtain ⟨b2, e2, -, n2, y2, -, -⟩ := Emit_ret_ok kern buf hlive (by omega)
    (hgrant.mono (by omega))
  refine ⟨⟨b1, e1, ?_, n1, ?_⟩, ?_, ⟨b2, e2, y2, n2, ?_⟩⟩
  · rw [y1]; rfl
  · rw [y1, ← hbl, List.take_left]
  · cases r <;> decide
  · rw [y2, ← hbl, List.take_left]

/-- C10 at the register `kRdi` and the immediate `0x12345678` on the empty buffer of
capacity 1, under the kernel that grants the requests of at most 16 bytes; under the
kernel that refuses every request `Emit_ret` stops at the assertion on `MAP_FAILED`
once the buffer is full. -/
theorem C10_emit_appends_witness :
    ((-2 ^ 31 : Int) ≤ 0x12345678 ∧ (0x12345678 : Int) < 2 ^ 31 ∧
        (emptyBuffer 1).state = .kWriteable ∧ (emptyBuffer 1).Live ∧
        (emptyBuffer 1).len + 7 < 2 ^ 63 ∧
        (Kernel.upTo 16).GrantsGrowth (emptyBuffer 1) 7) ∧
      ((∃ buf1, Emit_mov_reg_imm32 (Kernel.upTo 16) .kRdi 0x12345678 (emptyBuffer 1) =
            (.ok (), buf1) ∧
          buf1.bytes = (emptyBuffer 1).bytes ++ [0x48, 0xc7, 0xc0 + Register.kRdi.val,
            ((0x12345678 : Int) % 2 ^ 32).toNat % 256,
            ((0x12345678 : Int) % 2 ^ 32).toNat / 2 ^ 8 % 256,
            ((0x12345678 : Int) % 2 ^ 32).toNat / 2 ^ 16 % 256,
            ((0x12345678 : Int) % 2 ^ 32).toNat / 2 ^ 24 % 256] ∧
          buf1.len = (emptyBuffer 1).len + 7 ∧
          buf1.bytes.take (emptyBuffer 1).len = (emptyBuffer 1).bytes) ∧
        (Register.kRdi.val ≤ 7 ∧ 0xc0 + Register.kRdi.val < 256) ∧
        (∃ buf2, Emit_ret (Kernel.upTo 16) (emptyBuffer 1) = (.ok (), buf2) ∧
          buf2.bytes = (emptyBuffer 1).bytes ++ [0xc3] ∧
          buf2.len = (emptyBuffer 1).len + 1 ∧
          buf2.bytes.take (emptyBuffer 1).len = (emptyBuffer 1).bytes)) ∧
      ((Emit_mov_reg_imm32 (Kernel.upTo 16) .kRdi 0x12345678 (emptyBuffer 1)).2.bytes =
          [0x48, 0xc7, 0xc7, 0x78, 0x56, 0x34, 0x12] ∧
        Emit_ret Kernel.refusing ⟨[0x90], .kWriteable, 1, 1⟩ =
          (.error (.assertion "result != MAP_FAILED"), ⟨[0x90], .kWriteable, 1, 1⟩)) :=
  ⟨⟨by decide, by decide, by decide, by decide, by decide,
      Kernel.GrantsGrowth.of_upTo 16 (emptyBuffer 1) 7 (by decide)⟩,
    C10_emit_appends (Kernel.upTo 16) .kRdi 0x12345678 (emptyBuffer 1) (by decide) (by decide)
      (by decide) (by decide) (by decide)
      (Kernel.GrantsGrowth.of_upTo 16 (emptyBuffer 1) 7 (by decide)),
    by decide!⟩

/-! ## Frame properties of the operations -/

theorem Exec.bind_apply {α β : Type} (m : Exec α) (f : α → Exec β) (buf : Buffer) :
    (m >>= f) buf =
      match m buf with
      | (.ok a, buf1) => f a buf1
      | (.error e, buf1) => (.error e, buf1) := rfl

theorem Exec.Keeps.bind {α β : Type} {P : Buffer → Prop} {m : Exec α} {f : α → Exec β}
    (hm : Exec.Keeps P m) (hf : ∀ a, Exec.Keeps P (f a)) : Exec.Keeps P (m >>= f) := by
  intro buf hP
  rw [Exec.bind_apply]
  have h1 := hm buf hP
  rcases hmb : m buf with ⟨r, buf1⟩
  rw [hmb] at h1
  cases r with
  | ok a => exact hf a buf1 h1
  | error e => exact h1

theorem Exec.Keeps.pure {α : Type} {P : Buffer → Prop} (a : α) :
    Exec.Keeps P (pure a : Exec α) := fun _ h => h

theorem Exec.Keeps.fail {α : Type} {P : Buffer → Prop} (e : Fault) :
    Exec.Keeps P (Exec.fail e : Exec α) := fun _ h => h

theorem Exec.Keeps.ofExcept {α : Type} {P : Buffer → Prop} (r : Except Fault α) :
    Exec.Keeps P (Exec.ofExcept r) := fun _ h => h

theorem Exec.Keeps.discard {α : Type} {P : Buffer → Prop} {m : Exec α}
    (hm : Exec.Keeps P m) : Exec.Keeps P (Exec.discard m) := by
  intro buf hP
  have h1 := hm buf hP
  unfold Exec.discard
  rcases hmb : m buf with ⟨r, buf1⟩
  rw [hmb] at h1
  cases r <;> exact h1

theorem discard_snd {α : Type} (m : Exec α) (buf : Buffer) :
    (Exec.discard m buf).2 = (m buf).2 := by
  unfold Exec.discard
  rcases hmb : m buf with ⟨r, buf1⟩
  cases r <;> rfl

/-- A growing `Buffer_ensure_capacity` whose mapping is refused stops at the assertion on
`MAP_FAILED`, the buffer as it was. -/
theorem Buffer_ensure_capacity_refused (kern : Kernel) (a : Int) (buf : Buffer)
    (hfit : ¬ (buf.len + toUword a) % 2 ^ 64 ≤ buf.capacity)
    (href : newCapacity buf.capacity a = 0 ∨ kern.grants (newCapacity buf.capacity a) = false) :
    Buffer_ensure_capacity kern a buf = (.error (.assertion "result != MAP_FAILED"), buf) := by
  have halloc := Buffer_alloc_writeable_refused kern (newCapacity buf.capacity a) href
  unfold Buffer_ensure_capacity
  rw [if_neg hfit]
  unfold newCapacity at halloc
  simp only [halloc]

/-- Every outcome of `Buffer_ensure_capacity`: the request fits and nothing happens, or
growing fails (the mapping is refused, the copy or the unmapping fails) and nothing has
changed, or the buffer has moved to a granted region of `newCapacity` bytes that starts
with the `len` bytes written so far. -/
theorem Buffer_ensure_capacity_cases (kern : Kernel) (a : Int) (buf : Buffer) :
    ((buf.len + toUword a) % 2 ^ 64 ≤ buf.capacity ∧
        Buffer_ensure_capacity kern a buf = (.ok (), buf)) ∨
      (¬ (buf.len + toUword a) % 2 ^ 64 ≤ buf.capacity ∧
        ∃ e, Buffer_ensure_capacity kern a buf = (.error e, buf)) ∨
      (¬ (buf.len + toUword a) % 2 ^ 64 ≤ buf.capacity ∧
        newCapacity buf.capacity a ≠ 0 ∧ kern.grants (newCapacity buf.capacity a) = true ∧
        buf.len ≤ buf.address.length ∧
        buf.len ≤ newCapacity buf.capacity a ∧ buf.capacity ≠ 0 ∧
        Buffer_ensure_capacity kern a buf = (.ok (), { buf with
          address := buf.address.take buf.len ++
            (List.replicate (newCapacity buf.capacity a) 0).drop buf.len,
          capacity := newCapacity buf.capacity a })) := by
  by_cases hfit : (buf.len + toUword a) % 2 ^ 64 ≤ buf.capacity
  · exact Or.inl ⟨hfit, Buffer_ensure_capacity_fits kern a buf hfit⟩
  · right
    by_cases href : newCapacity buf.capacity a = 0 ∨
        kern.grants (newCapacity buf.capacity a) = false
    · left
      exact ⟨hfit, _, Buffer_ensure_capacity_refused kern a buf hfit href⟩
    · push_neg at href
      obtain ⟨hn0, hgr0⟩ := href
      have hgr : kern.grants (newCapacity buf.capacity a) = true := by
        cases hk : kern.grants (newCapacity buf.capacity a) with
        | true => rfl
        | false => exact absurd hk hgr0
      have halloc := Buffer_alloc_writeable_ok kern (newCapacity buf.capacity a) hn0 hgr
      by_cases hcopy : buf.len ≤ buf.address.length ∧ buf.len ≤ newCapacity buf.capacity a
      · by_cases hcap : buf.capacity = 0
        · left
          refine ⟨hfit, .assertion "munmap failed", ?_⟩
          unfold Buffer_ensure_capacity
          rw [if_neg hfit]
          have hmem : memcpy (List.replicate (newCapacity buf.capacity a) 0) buf.address
              buf.len = .ok (buf.address.take buf.len ++
                (List.replicate (newCapacity buf.capacity a) 0).drop buf.len) := by
            unfold memcpy
            rw [if_pos ⟨hcopy.1, by rw [List.length_replicate]; exact hcopy.2⟩]
          have hunmap : munmap buf.capacity = -1 := by
            unfold munmap
            rw [if_pos hcap]
          unfold newCapacity at halloc hmem
          simp only [halloc, hmem, hunmap]
          rfl
        · right
          exact ⟨hfit, hn0, hgr, hcopy.1, hcopy.2, hcap,
            Buffer_ensure_capacity_grows kern a buf _ hfit rfl hn0 hgr hcopy.1 hcopy.2 hcap⟩
      · left
        refine ⟨hfit, .outOfRegion, ?_⟩
        unfold Buffer_ensure_capacity
        rw [if_neg hfit]
        have hmem : memcpy (List.replicate (newCapacity buf.capacity a) 0) buf.address
            buf.len = .error .outOfRegion := by
          unfold memcpy
          rw [if_neg (by rw [List.length_replicate]; exact hcopy)]
        unfold newCapacity at halloc hmem
        simp only [halloc, hmem]

/-! ## The state field -/

theorem Buffer_ensure_capacity_state (kern : Kernel) (a : Int) (buf : Buffer) :
    (Buffer_ensure_capacity kern a buf).2.state = buf.state := by
  rcases Buffer_ensure_capacity_cases kern a buf with
    ⟨-, h⟩ | ⟨-, e, h⟩ | ⟨-, -, -, -, -, -, h⟩ <;> rw [h]

theorem Buffer_at_put8_state (pos b : Nat) (buf : Buffer) :
    (Buffer_at_put8 pos b buf).2.state = buf.state := by
  unfold Buffer_at_put8
  split <;> rfl

theorem Buffer_write8_keeps_state (kern : Kernel) (s : BufferState) (b : Nat) :
    Exec.Keeps (fun buf => buf.state = s) (Buffer_write8 kern b) := by
  unfold Buffer_write8
  refine Exec.Keeps.bind ?_ (fun _ => Exec.Keeps.bind ?_ (fun pos => ?_))
  · intro buf h
    rw [Buffer_ensure_capacity_state]; exact h
  · intro buf h
    exact h
  · intro buf h
    rw [Buffer_at_put8_state]; exact h

theorem Buffer_write32_loop_keeps (kern : Kernel) {P : Buffer → Prop}
    (hw : ∀ b, Exec.Keeps P (Buffer_write8 kern b)) (value : Int) (n : Nat) :
    ∀ i, Exec.Keeps P (Buffer_write32_loop kern value i n) := by
  induction n with
  | zero =>
    intro i
    exact Exec.Keeps.pure ()
  | succ k ih =>
    intro i
    exact Exec.Keeps.bind (hw _) (fun _ => ih (i + 1))

theorem Buffer_write32_keeps (kern : Kernel) {P : Buffer → Prop}
    (hw : ∀ b, Exec.Keeps P (Buffer_write8 kern b)) (value : Int) :
    Exec.Keeps P (Buffer_write32 kern value) :=
  Buffer_write32_loop_keeps kern hw value 4 0

theorem Emit_mov_reg_imm32_keeps (kern : Kernel) {P : Buffer → Prop}
    (hw : ∀ b, Exec.Keeps P (Buffer_write8 kern b)) (dst : Register) (src : Int) :
    Exec.Keeps P (Emit_mov_reg_imm32 kern dst src) := by
  unfold Emit_mov_reg_imm32
  exact Exec.Keeps.bind (hw _) (fun _ => Exec.Keeps.bind (hw _) (fun _ =>
    Exec.Keeps.bind (hw _) (fun _ => Buffer_write32_keeps kern hw src)))

theorem Emit_ret_keeps (kern : Kernel) {P : Buffer → Prop}
    (hw : ∀ b, Exec.Keeps P (Buffer_write8 kern b)) : Exec.Keeps P (Emit_ret kern) :=
  hw _

theorem Compile_expr_keeps (kern : Kernel) {P : Buffer → Prop}
    (hw : ∀ b, Exec.Keeps P (Buffer_write8 kern b)) (node : Int) :
    Exec.Keeps P (Compile_expr kern node) := by
  unfold Compile_expr
  split
  · exact Exec.Keeps.bind (Exec.Keeps.ofExcept _) (fun _ =>
      Exec.Keeps.bind (Emit_mov_reg_imm32_keeps kern hw _ _) (fun _ => Exec.Keeps.pure 0))
  · split
    · exact Exec.Keeps.bind (Emit_mov_reg_imm32_keeps kern hw _ _) (fun _ => Exec.Keeps.pure 0)
    · split
      · exact Exec.Keeps.bind (Emit_mov_reg_imm32_keeps kern hw _ _) (fun _ => Exec.Keeps.pure 0)
      · exact Exec.Keeps.fail _

theorem Compile_function_keeps (kern : Kernel) {P : Buffer → Prop}
    (hw : ∀ b, Exec.Keeps P (Buffer_write8 kern b)) (node : Int) :
    Exec.Keeps P (Compile_function kern node) := by
  unfold Compile_function
  refine Exec.Keeps.bind (Compile_expr_keeps kern hw node) (fun result => ?_)
  split
  · exact Exec.Keeps.pure _
  · exact Exec.Keeps.bind (Emit_ret_keeps kern hw) (fun _ => Exec.Keeps.pure 0)

/-- No operation other than `Buffer_make_executable` touches the state field. -/
theorem BufferOp.exec_state (kern : Kernel) (op : BufferOp) (buf : Buffer)
    (hop : ∀ r, op ≠ .make_executable r) : (op.exec kern buf).2.state = buf.state := by
  have hw := Buffer_write8_keeps_state kern buf.state
  cases op with
  | ensure_capacity a => exact Buffer_ensure_capacity_state kern a buf
  | write8 b => exact hw b buf rfl
  | write32 v => exact Buffer_write32_keeps kern hw v buf rfl
  | mov_reg_imm32 dst src => exact Emit_mov_reg_imm32_keeps kern hw dst src buf rfl
  | ret => exact Emit_ret_keeps kern hw buf rfl
  | compile_expr node =>
    simp only [BufferOp.exec]
    rw [discard_snd]
    exact Compile_expr_keeps kern hw node buf rfl
  | compile_function node =>
    simp only [BufferOp.exec]
    rw [discard_snd]
    exact Compile_function_keeps kern hw node buf rfl
  | make_executable r => exact absurd rfl (hop r)
  | deinit => rfl

theorem BufferOp.exec_executable (kern : Kernel) (op : BufferOp) (buf : Buffer)
    (h : buf.state = .kExecutable) : (op.exec kern buf).2.state = .kExecutable := by
  by_cases hop : ∀ r, op ≠ .make_executable r
  · rw [BufferOp.exec_state kern op buf hop]; exact h
  · push_neg at hop
    obtain ⟨r, rfl⟩ := hop
    rfl

theorem runOps_executable (kern : Kernel) (ops : List BufferOp) :
    ∀ buf : Buffer, buf.state = .kExecutable → (runOps kern ops buf).state = .kExecutable := by
  induction ops with
  | nil => intro buf h; exact h
  | cons op ops ih =>
    intro buf h
    have h1 := BufferOp.exec_executable kern op buf h
    unfold runOps
    rcases hob : op.exec kern buf with ⟨r, buf1⟩
    rw [hob] at h1
    cases r with
    | ok a => exact ih buf1 h1
    | error e => exact h1

/-- C16. The state machine of the buffer, whatever the kernel grants: `Buffer_init` yields
`kWriteable`; no operation
other than `Buffer_make_executable` (growing, the writes, the emitters, the compile
functions, `Buffer_deinit`) changes the state field, whatever its outcome;
`Buffer_make_executable` sets it to `kExecutable`; and once it is `kExecutable`, it is
`kExecutable` after any sequence of operations on that buffer. -/
theorem C16_state_machine (kern : Kernel) (capacity : Nat) (buf0 buf : Buffer) (op : BufferOp)
    (ops : List BufferOp) (result : Int) (hinit : Buffer_init kern capacity = .ok buf0) :
    buf0.state = .kWriteable ∧
      ((∀ r, op ≠ .make_executable r) → (op.exec kern buf).2.state = buf.state) ∧
      (Buffer_make_executable result buf).2.state = .kExecutable ∧
      (buf.state = .kExecutable → (runOps kern ops buf).state = .kExecutable) := by
  refine ⟨?_, BufferOp.exec_state kern op buf, rfl, runOps_executable kern ops buf⟩
  unfold Buffer_init at hinit
  cases halloc : Buffer_alloc_writeable kern capacity with
  | error e => rw [halloc] at hinit; exact Except.noConfusion hinit
  | ok address =>
    rw [halloc] at hinit
    rw [← Except.ok.inj hinit]

/-- C16 under the kernel that grants the requests of at most 16 bytes, on the buffer
`Buffer_init 1` yields: a write keeps the state, and after `Buffer_make_executable` a
write, a compilation and `Buffer_deinit` leave it executable. -/
theorem C16_state_machine_witness :
    Buffer_init (Kernel.upTo 16) 1 = .ok (emptyBuffer 1) ∧
      ((emptyBuffer 1).state = .kWriteable ∧
        ((∀ r, BufferOp.write8 0xdb ≠ .make_executable r) →
          ((BufferOp.write8 0xdb).exec (Kernel.upTo 16) (emptyBuffer 1)).2.state =
            (emptyBuffer 1).state) ∧
        (Buffer_make_executable 0 (emptyBuffer 1)).2.state = .kExecutable ∧
        ((emptyBuffer 1).state = .kExecutable →
          (runOps (Kernel.upTo 16) [.write8 1, .compile_function 0x2f, .deinit]
            (emptyBuffer 1)).state = .kExecutable)) ∧
      (runOps (Kernel.upTo 16) [.make_executable 0, .write8 1, .compile_function 492, .deinit]
        (emptyBuffer 1)).state = .kExecutable :=
  ⟨by decide,
    C16_state_machine (Kernel.upTo 16) 1 (emptyBuffer 1) (emptyBuffer 1) (.write8 0xdb)
      [.write8 1, .compile_function 0x2f, .deinit] 0 (by decide),
    by decide!⟩

/-- C20. `Buffer_make_executable`, whatever `mprotect` returned, returns that very result
and sets the state to `kExecutable`, also when the result reports a failure; the length,
the capacity and the bytes of the buffer stay as they were. -/
theorem C20_make_executable (result : Int) (buf : Buffer) :
    (Buffer_make_executable result buf).1 = .ok result ∧
      (Buffer_make_executable result buf).2.state = .kExecutable ∧
      (Buffer_make_executable result buf).2.len = buf.len ∧
      (Buffer_make_executable result buf).2.capacity = buf.capacity ∧
      (Buffer_make_executable result buf).2.address = buf.address ∧
      (Buffer_make_executable result buf).2.bytes = buf.bytes :=
  ⟨rfl, rfl, rfl, rfl, rfl, rfl⟩

/-! ## The invariant `len ≤ capacity` -/

theorem toUword_toWord_cast (x : Nat) (h : x < 2 ^ 64) : toUword (toWord (x : Int)) = x := by
  unfold toUword toWord
  omega

/-- The new capacity is one of the two candidates of the source, taken in `size_t`. -/
theorem newCapacity_cases (capacity : Nat) (a : Int) :
    newCapacity capacity a = capacity * 2 % 2 ^ 64 ∨
      newCapacity capacity a = (capacity + toUword a) % 2 ^ 64 := by
  unfold newCapacity max
  split
  · left
    exact toUword_toWord_cast _ (Nat.mod_lt _ (by norm_num))
  · right
    exact toUword_toWord_cast _ (Nat.mod_lt _ (by norm_num))

theorem Buffer_ensure_capacity_keeps_le (kern : Kernel) (a : Int) :
    Exec.Keeps (fun buf => buf.len ≤ buf.capacity) (Buffer_ensure_capacity kern a) := by
  intro buf hle
  rcases Buffer_ensure_capacity_cases kern a buf with
    ⟨-, h⟩ | ⟨-, e, h⟩ | ⟨-, -, -, -, hdst, -, h⟩
  · rw [h]; exact hle
  · rw [h]; exact hle
  · rw [h]
    dsimp only
    exact hdst

/-- After a successful `Buffer_ensure_capacity(buf, 1)` the incremented length is within
the capacity. -/
theorem Buffer_ensure_capacity_one_post (kern : Kernel) (buf buf1 : Buffer)
    (hle : buf.len ≤ buf.capacity)
    (h : Buffer_ensure_capacity kern 1 buf = (.ok (), buf1)) :
    (buf1.len + 1) % 2 ^ 64 ≤ buf1.capacity := by
  rcases Buffer_ensure_capacity_cases kern 1 buf with ⟨hfit, h1⟩ | ⟨-, e, h1⟩ |
    ⟨hnfit, hn0, -, -, hdst, hcap0, h1⟩
  · rw [h1] at h
    rw [← (Prod.mk.inj h).2]
    rw [toUword_one] at hfit
    exact hfit
  · rw [h1] at h
    exact Except.noConfusion (Prod.mk.inj h).1
  · rw [h1] at h
    rw [← (Prod.mk.inj h).2]
    rw [toUword_one] at hnfit
    dsimp only
    have hn := newCapacity_cases buf.capacity 1
    rw [toUword_one] at hn
    generalize newCapacity buf.capacity 1 = n at hn hn0 hdst
    omega

theorem Buffer_write8_keeps_le (kern : Kernel) (b : Nat) :
    Exec.Keeps (fun buf => buf.len ≤ buf.capacity) (Buffer_write8 kern b) := by
  intro buf hle
  unfold Buffer_write8
  rcases hens : Buffer_ensure_capacity kern 1 buf with ⟨r, buf1⟩
  cases r with
  | error e =>
    rw [Exec.bind_of_error hens]
    have := Buffer_ensure_capacity_keeps_le kern 1 buf hle
    rw [hens] at this
    exact this
  | ok u =>
    have hpost := Buffer_ensure_capacity_one_post kern buf buf1 hle hens
    rw [Exec.bind_of_ok hens]
    have hinc : Buffer_len_postinc buf1 =
        (.ok buf1.len, { buf1 with len := (buf1.len + 1) % 2 ^ 64 }) := rfl
    rw [Exec.bind_of_ok hinc]
    unfold Buffer_at_put8
    split
    · exact hpost
    · exact hpost

/-- Every operation keeps `len ≤ capacity`, whatever its outcome. -/
theorem BufferOp.exec_keeps_le (kern : Kernel) (op : BufferOp) :
    Exec.Keeps (fun buf => buf.len ≤ buf.capacity) (op.exec kern) := by
  have hw := Buffer_write8_keeps_le kern
  cases op with
  | ensure_capacity a => exact Buffer_ensure_capacity_keeps_le kern a
  | write8 b => exact hw b
  | write32 v => exact Buffer_write32_keeps kern hw v
  | mov_reg_imm32 dst src => exact Emit_mov_reg_imm32_keeps kern hw dst src
  | ret => exact Emit_ret_keeps kern hw
  | compile_expr node =>
    simp only [BufferOp.exec]
    exact Exec.Keeps.discard (Compile_expr_keeps kern hw node)
  | compile_function node =>
    simp only [BufferOp.exec]
    exact Exec.Keeps.discard (Compile_function_keeps kern hw node)
  | make_executable r =>
    intro buf h
    exact h
  | deinit =>
    intro buf _
    exact Nat.le_refl 0

theorem runOps_keeps_le (kern : Kernel) (ops : List BufferOp) :
    ∀ buf : Buffer, buf.len ≤ buf.capacity →
      (runOps kern ops buf).len ≤ (runOps kern ops buf).capacity := by
  induction ops with
  | nil => intro buf h; exact h
  | cons op ops ih =>
    intro buf h
    have h1 := BufferOp.exec_keeps_le kern op buf h
    unfold runOps
    rcases hob : op.exec kern buf with ⟨r, buf1⟩
    rw [hob] at h1
    cases r with
    | ok a => exact ih buf1 h1
    | error e => exact h1

/-- C15. The invariant `len ≤ capacity`, whatever the kernel grants: it holds of the
buffer `Buffer_init` yields;
each operation (`Buffer_ensure_capacity`, `Buffer_write8`, `Buffer_write32`,
`Emit_mov_reg_imm32`, `Emit_ret`, `Compile_expr`, `Compile_function`,
`Buffer_make_executable`, `Buffer_deinit`), run on a buffer that has it, leaves a buffer
that has it, whether the operation returns or stops the process; hence it holds after
any sequence of operations on an initialised buffer. -/
theorem C15_len_le_capacity (kern : Kernel) (capacity : Nat) (buf0 buf : Buffer)
    (op : BufferOp) (ops : List BufferOp) (hinit : Buffer_init kern capacity = .ok buf0)
    (hbuf : buf.len ≤ buf.capacity) :
    buf0.len ≤ buf0.capacity ∧
      (op.exec kern buf).2.len ≤ (op.exec kern buf).2.capacity ∧
      (runOps kern ops buf0).len ≤ (runOps kern ops buf0).capacity := by
  have h0 : buf0.len ≤ buf0.capacity := by
    unfold Buffer_init at hinit
    cases halloc : Buffer_alloc_writeable kern capacity with
    | error e => rw [halloc] at hinit; exact Except.noConfusion hinit
    | ok address =>
      rw [halloc] at hinit
      rw [← Except.ok.inj hinit]
      exact Nat.zero_le _
  exact ⟨h0, BufferOp.exec_keeps_le kern op buf hbuf, runOps_keeps_le kern ops buf0 h0⟩

/-- C15 under the kernel that grants the requests of at most 16 bytes, on the buffer
`Buffer_init 1` yields, with a full buffer of one byte for the single operation and a
sequence that grows, compiles, fails on the nil node and stops; under the kernel that
grants at most 4 bytes the run stops at a refused mapping, the invariant in place. -/
theorem C15_len_le_capacity_witness :
    (Buffer_init (Kernel.upTo 16) 1 = .ok (emptyBuffer 1) ∧
        (⟨[7], .kWriteable, 1, 1⟩ : Buffer).len ≤ (⟨[7], .kWriteable, 1, 1⟩ : Buffer).capacity) ∧
      ((emptyBuffer 1).len ≤ (emptyBuffer 1).capacity ∧
        ((BufferOp.write32 (-1)).exec (Kernel.upTo 16) ⟨[7], .kWriteable, 1, 1⟩).2.len ≤
          ((BufferOp.write32 (-1)).exec (Kernel.upTo 16) ⟨[7], .kWriteable, 1, 1⟩).2.capacity ∧
        (runOps (Kernel.upTo 16) [.write8 1, .write8 2, .compile_function 492,
            .make_executable 0, .compile_expr 0x2f, .deinit] (emptyBuffer 1)).len ≤
          (runOps (Kernel.upTo 16) [.write8 1, .write8 2, .compile_function 492,
            .make_executable 0, .compile_expr 0x2f, .deinit] (emptyBuffer 1)).capacity) ∧
      ((runOps (Kernel.upTo 16) [.write8 1, .write8 2, .compile_function 492]
          (emptyBuffer 1)).len = 10 ∧
        (runOps (Kernel.upTo 16) [.write8 1, .write8 2, .compile_function 492]
          (emptyBuffer 1)).capacity = 16 ∧
        (runOps (Kernel.upTo 4) [.write8 1, .write8 2, .compile_function 492]
          (emptyBuffer 1)).len = 4 ∧
        (runOps (Kernel.upTo 4) [.write8 1, .write8 2, .compile_function 492]
          (emptyBuffer 1)).capacity = 4) :=
  ⟨by decide,
    C15_len_le_capacity (Kernel.upTo 16) 1 (emptyBuffer 1) ⟨[7], .kWriteable, 1, 1⟩
      (.write32 (-1))
      [.write8 1, .write8 2, .compile_function 492, .make_executable 0, .compile_expr 0x2f,
        .deinit] (by decide) (by decide),
    by decide!⟩

/-! ## Reading the buffer back -/

theorem Buffer.bytes_length (buf : Buffer) (hlive : buf.Live) : buf.bytes.length = buf.len := by
  obtain ⟨hreg, -, hle⟩ := hlive
  simp only [Buffer.bytes, List.length_take]
  omega

theorem Buffer_at8_of_bytes (buf : Buffer) (i x : Nat) (hi : i < buf.len)
    (h : buf.bytes.get? i = some x) : Buffer_at8 buf i = .ok x := by
  unfold Buffer.bytes at h
  rw [List.get?_eq_getElem?, List.getElem?_take_of_lt hi] at h
  unfold Buffer_at8
  rw [List.get?_eq_getElem?, h]

/-- What appending to a live buffer means for `Buffer_at8`: the old positions read as
before, the new ones read the appended bytes. -/
theorem Buffer_at8_after_append (buf buf1 : Buffer) (xs : List Nat) (hlive : buf.Live)
    (hlen : buf1.len = buf.len + xs.length) (hbytes : buf1.bytes = buf.bytes ++ xs) :
    (∀ i, i < buf.len → Buffer_at8 buf1 i = Buffer_at8 buf i) ∧
      (∀ j x, xs.get? j = some x → Buffer_at8 buf1 (buf.len + j) = .ok x) := by
  have hbl := Buffer.bytes_length buf hlive
  constructor
  · intro i hi
    have h1 : buf1.address.get? i = buf.address.get? i := by
      have ha : buf1.bytes[i]? = buf.bytes[i]? := by
        rw [hbytes, List.getElem?_append_left (by omega)]
      unfold Buffer.bytes at ha
      rw [List.getElem?_take_of_lt (by omega), List.getElem?_take_of_lt hi] at ha
      rw [List.get?_eq_getElem?, List.get?_eq_getElem?]
      exact ha
    unfold Buffer_at8
    rw [h1]
  · intro j x hx
    have hj : j < xs.length := by
      by_contra hcon
      rw [List.get?_eq_none.mpr (by omega)] at hx
      exact Option.noConfusion hx
    refine Buffer_at8_of_bytes buf1 _ x (by omega) ?_
    rw [List.get?_eq_getElem?] at hx ⊢
    rw [hbytes, List.getElem?_append_right (by omega), hbl, Nat.add_sub_cancel_left]
    exact hx

theorem le32_eq_write32Byte (value : Int) :
    le32 value = [write32Byte value 0, write32Byte value 1, write32Byte value 2,
      write32Byte value 3] := by
  obtain ⟨h0, h1, h2, h3⟩ := write32_byte value
  unfold write32Byte le32
  rw [← h0, ← h1, ← h2, ← h3]

theorem le32_sum (value : Int) :
    (value % 2 ^ 32).toNat % 256 + 2 ^ 8 * ((value % 2 ^ 32).toNat / 2 ^ 8 % 256) +
      2 ^ 16 * ((value % 2 ^ 32).toNat / 2 ^ 16 % 256) +
      2 ^ 24 * ((value % 2 ^ 32).toNat / 2 ^ 24 % 256) = (value % 2 ^ 32).toNat := by
  have h : (value % 2 ^ 32).toNat < 2 ^ 32 := by omega
  generalize (value % 2 ^ 32).toNat = u at h
  omega

/-! ## The capacity asked for -/

/-- Without overflow the new capacity is the larger of twice the old one and the old one
plus the request. -/
theorem newCapacity_eq_max (capacity : Nat) (a : Int) (ha : 0 ≤ a)
    (hdouble : capacity * 2 < 2 ^ 63) (hsum : capacity + a.toNat < 2 ^ 63) :
    newCapacity capacity a = Nat.max (capacity * 2) (capacity + a.toNat) := by
  have hua : toUword a = a.toNat := toUword_of_nonneg a ha (by omega)
  have h1 : capacity * 2 % 2 ^ 64 = capacity * 2 := Nat.mod_eq_of_lt (by omega)
  have h2 : (capacity + a.toNat) % 2 ^ 64 = capacity + a.toNat := Nat.mod_eq_of_lt (by omega)
  have hx : toWord ((capacity * 2 : Nat) : Int) = ((capacity * 2 : Nat) : Int) :=
    toWord_of_range _ (by omega) (by omega)
  have hy : toWord ((capacity + a.toNat : Nat) : Int) = ((capacity + a.toNat : Nat) : Int) :=
    toWord_of_range _ (by omega) (by omega)
  unfold newCapacity
  rw [hua, h1, h2, hx, hy]
  unfold max
  split
  · rename_i h
    have ht : toUword ((capacity * 2 : Nat) : Int) = capacity * 2 := by unfold toUword; omega
    rw [ht]
    exact (Nat.max_eq_left (by omega)).symm
  · rename_i h
    have ht : toUword ((capacity + a.toNat : Nat) : Int) = capacity + a.toNat := by
      unfold toUword; omega
    rw [ht]
    exact (Nat.max_eq_right (by omega)).symm

/-- A request of one byte on a buffer that is not empty asks for twice the capacity. -/
theorem newCapacity_one_double (capacity : Nat) (hpos : 0 < capacity)
    (hdouble : 2 * capacity < 2 ^ 63) : newCapacity capacity 1 = 2 * capacity := by
  have h1 : ((1 : Int).toNat) = 1 := rfl
  rw [newCapacity_eq_max capacity 1 (by decide) (by omega) (by rw [h1]; omega), h1]
  rw [Nat.mul_comm]
  exact Nat.max_eq_left (by omega)

/-- A refused mapping stops `Buffer_write8` before it stores anything. -/
theorem Buffer_write8_refused (kern : Kernel) (b : Nat) (buf : Buffer)
    (hlen : buf.len + 1 < 2 ^ 63) (hfull : buf.len = buf.capacity)
    (href : kern.grants (newCapacity buf.capacity 1) = false) :
    Buffer_write8 kern b buf = (.error (.assertion "result != MAP_FAILED"), buf) := by
  have hwrap : (buf.len + 1) % 2 ^ 64 = buf.len + 1 := Nat.mod_eq_of_lt (by omega)
  have hens := Buffer_ensure_capacity_refused kern 1 buf
    (by rw [toUword_one, hwrap]; omega) (Or.inr href)
  unfold Buffer_write8
  rw [Exec.bind_of_error hens]

/-! ## Claims about the buffer -/

/-- C11. For every 32-bit value `v`, every writable live buffer of length `n` (`n + 4`
below `2^63`) and every kernel that grants the mappings the buffer has to ask for when
the 4 bytes do not fit, `Buffer_write32` succeeds, the length becomes `n + 4`, the bytes
at positions below `n` read as before, the bytes at positions `n` to `n + 3` are
`(v >> 8i) & 0xff` for `i = 0, 1, 2, 3`, and these four bytes weighted by `2^(8i)` add
up to `v` modulo `2^32`. -/
theorem C11_write32 (kern : Kernel) (v : Int) (buf : Buffer) (_hv0 : -2 ^ 31 ≤ v)
    (_hv1 : v < 2 ^ 31) (_hstate : buf.state = .kWriteable) (hlive : buf.Live)
    (hlen : buf.len + 4 < 2 ^ 63) (hgrant : kern.GrantsGrowth buf 4) :
    ∃ buf1, Buffer_write32 kern v buf = (.ok (), buf1) ∧ buf1.len = buf.len + 4 ∧
      (∀ i, i < buf.len → Buffer_at8 buf1 i = Buffer_at8 buf i) ∧
      (Buffer_at8 buf1 buf.len = .ok (write32Byte v 0) ∧
        Buffer_at8 buf1 (buf.len + 1) = .ok (write32Byte v 1) ∧
        Buffer_at8 buf1 (buf.len + 2) = .ok (write32Byte v 2) ∧
        Buffer_at8 buf1 (buf.len + 3) = .ok (write32Byte v 3)) ∧
      buf1.bytes = buf.bytes ++
        [write32Byte v 0, write32Byte v 1, write32Byte v 2, write32Byte v 3] ∧
      ((write32Byte v 0 + 2 ^ 8 * write32Byte v 1 + 2 ^ 16 * write32Byte v 2 +
        2 ^ 24 * write32Byte v 3 : Nat) : Int) = v % 2 ^ 32 := by
  obtain ⟨b1, e1, -, n1, y1, -, -⟩ := Buffer_write32_ok kern v buf hlive hlen hgrant
  rw [le32_eq_write32Byte] at y1
  obtain ⟨hold, hnew⟩ := Buffer_at8_after_append buf b1 _ hlive (by rw [n1]; rfl) y1
  refine ⟨b1, e1, n1, hold, ⟨?_, ?_, ?_, ?_⟩, y1, ?_⟩
  · exact hnew 0 _ rfl
  · exact hnew 1 _ rfl
  · exact hnew 2 _ rfl
  · exact hnew 3 _ rfl
  · obtain ⟨h0, h1, h2, h3⟩ := write32_byte v
    unfold write32Byte
    rw [h0, h1, h2, h3, le32_sum]
    omega

/-- C11 at `v = 0xDEADBEEF` (the `int32_t` of that pattern) on the empty buffer of
capacity 1, under the kernel that grants the requests of at most 8 bytes: the bytes are
`EF BE AD DE` and the length is 4; under the kernel that grants at most 2 bytes the same
call stops at the assertion on `MAP_FAILED` after the second byte. -/
theorem C11_write32_witness :
    ((-2 ^ 31 : Int) ≤ toInt32 0xdeadbeef ∧ toInt32 0xdeadbeef < 2 ^ 31 ∧
        (emptyBuffer 1).state = .kWriteable ∧ (emptyBuffer 1).Live ∧
        (emptyBuffer 1).len + 4 < 2 ^ 63 ∧ (Kernel.upTo 8).GrantsGrowth (emptyBuffer 1) 4) ∧
      (∃ buf1, Buffer_write32 (Kernel.upTo 8) (toInt32 0xdeadbeef) (emptyBuffer 1) =
          (.ok (), buf1) ∧
        buf1.len = (emptyBuffer 1).len + 4 ∧
        (∀ i, i < (emptyBuffer 1).len → Buffer_at8 buf1 i = Buffer_at8 (emptyBuffer 1) i) ∧
        (Buffer_at8 buf1 (emptyBuffer 1).len = .ok (write32Byte (toInt32 0xdeadbeef) 0) ∧
          Buffer_at8 buf1 ((emptyBuffer 1).len + 1) = .ok (write32Byte (toInt32 0xdeadbeef) 1) ∧
          Buffer_at8 buf1 ((emptyBuffer 1).len + 2) = .ok (write32Byte (toInt32 0xdeadbeef) 2) ∧
          Buffer_at8 buf1 ((emptyBuffer 1).len + 3) =
            .ok (write32Byte (toInt32 0xdeadbeef) 3)) ∧
        buf1.bytes = (emptyBuffer 1).bytes ++
          [write32Byte (toInt32 0xdeadbeef) 0, write32Byte (toInt32 0xdeadbeef) 1,
            write32Byte (toInt32 0xdeadbeef) 2, write32Byte (toInt32 0xdeadbeef) 3] ∧
        ((write32Byte (toInt32 0xdeadbeef) 0 + 2 ^ 8 * write32Byte (toInt32 0xdeadbeef) 1 +
          2 ^ 16 * write32Byte (toInt32 0xdeadbeef) 2 +
          2 ^ 24 * write32Byte (toInt32 0xdeadbeef) 3 : Nat) : Int) =
            toInt32 0xdeadbeef % 2 ^ 32) ∧
      (Buffer_write32 (Kernel.upTo 8) (toInt32 0xdeadbeef) (emptyBuffer 1) =
          (.ok (), ⟨[0xef, 0xbe, 0xad, 0xde], .kWriteable, 4, 4⟩) ∧
        Buffer_at8 (Buffer_write32 (Kernel.upTo 8) (toInt32 0xdeadbeef) (emptyBuffer 1)).2 0 =
          .ok 0xef ∧
        Buffer_at8 (Buffer_write32 (Kernel.upTo 8) (toInt32 0xdeadbeef) (emptyBuffer 1)).2 3 =
          .ok 0xde ∧
        Buffer_write32 (Kernel.upTo 2) (toInt32 0xdeadbeef) (emptyBuffer 1) =
          (.error (.assertion "result != MAP_FAILED"), ⟨[0xef, 0xbe], .kWriteable, 2, 2⟩)) :=
  ⟨⟨by decide, by decide, by decide, by decide, by decide,
      Kernel.GrantsGrowth.of_upTo 8 (emptyBuffer 1) 4 (by decide)⟩,
    C11_write32 (Kernel.upTo 8) (toInt32 0xdeadbeef) (emptyBuffer 1) (by decide) (by decide)
      (by decide) (by decide) (by decide)
      (Kernel.GrantsGrowth.of_upTo 8 (emptyBuffer 1) 4 (by decide)),
    by decide!⟩

/-- C12. For every writable live buffer (`len ≤ capacity`, `len + 1` below `2^63`),
every byte `b` and every kernel: when the buffer has room, or it is full and the kernel
grants the mapping it asks for, `Buffer_write8` succeeds, the length grows by exactly 1,
`Buffer_at8` at the old length reads `b`, and every position below the old length reads
as before; when the buffer is full and the kernel refuses the mapping, `Buffer_write8`
stops at the assertion on `MAP_FAILED` and the buffer is as it was.  The mapping asked
for has twice the capacity (when that is below `2^63`). -/
theorem C12_write8 (kern : Kernel) (b : Nat) (buf : Buffer) (_hb : b < 256)
    (_hstate : buf.state = .kWriteable) (hlive : buf.Live) (hlen : buf.len + 1 < 2 ^ 63) :
    ((buf.len = buf.capacity → kern.grants (newCapacity buf.capacity 1) = true) →
        ∃ buf1, Buffer_write8 kern b buf = (.ok (), buf1) ∧ buf1.len = buf.len + 1 ∧
          Buffer_at8 buf1 buf.len = .ok b ∧
          (∀ i, i < buf.len → Buffer_at8 buf1 i = Buffer_at8 buf i)) ∧
      (buf.len = buf.capacity → kern.grants (newCapacity buf.capacity 1) = false →
        Buffer_write8 kern b buf = (.error (.assertion "result != MAP_FAILED"), buf)) ∧
      (2 * buf.capacity < 2 ^ 63 → newCapacity buf.capacity 1 = 2 * buf.capacity) := by
  refine ⟨fun hgrant => ?_, fun hfull href => Buffer_write8_refused kern b buf hlen hfull href,
    fun hdouble => newCapacity_one_double buf.capacity hlive.2.1 hdouble⟩
  obtain ⟨b1, e1, -, n1, y1, -, -⟩ := Buffer_write8_ok kern b buf hlive hlen hgrant
  obtain ⟨hold, hnew⟩ := Buffer_at8_after_append buf b1 [b] hlive (by rw [n1]; rfl) y1
  exact ⟨b1, e1, n1, hnew 0 b rfl, hold⟩

/-- C12 on the buffer `Buffer_init 5` yields, with the byte `0xdb`, under the kernel that
grants the requests of at most 8 bytes: the length is 1 and position 0 reads `0xdb`; and
on a full buffer of 5 bytes, where the same kernel refuses the 10 bytes asked for. -/
theorem C12_write8_witness :
    (Buffer_init (Kernel.upTo 8) 5 = .ok (emptyBuffer 5) ∧ 0xdb < 256 ∧
        (emptyBuffer 5).state = .kWriteable ∧ (emptyBuffer 5).Live ∧
        (emptyBuffer 5).len + 1 < 2 ^ 63) ∧
      (∃ buf1, Buffer_write8 (Kernel.upTo 8) 0xdb (emptyBuffer 5) = (.ok (), buf1) ∧
        buf1.len = (emptyBuffer 5).len + 1 ∧
        Buffer_at8 buf1 (emptyBuffer 5).len = .ok 0xdb ∧
        (∀ i, i < (emptyBuffer 5).len → Buffer_at8 buf1 i = Buffer_at8 (emptyBuffer 5) i)) ∧
      (Buffer_write8 (Kernel.upTo 8) 0xdb (emptyBuffer 5) =
          (.ok (), ⟨[0xdb, 0, 0, 0, 0], .kWriteable, 1, 5⟩) ∧
        Buffer_at8 (Buffer_write8 (Kernel.upTo 8) 0xdb (emptyBuffer 5)).2 0 = .ok 0xdb ∧
        newCapacity 5 1 = 10 ∧
        Buffer_write8 (Kernel.upTo 8) 0xdb ⟨[1, 2, 3, 4, 5], .kWriteable, 5, 5⟩ =
          (.error (.assertion "result != MAP_FAILED"),
            ⟨[1, 2, 3, 4, 5], .kWriteable, 5, 5⟩) ∧
        Buffer_write8 (Kernel.upTo 16) 0xdb ⟨[1, 2, 3, 4, 5], .kWriteable, 5, 5⟩ =
          (.ok (), ⟨[1, 2, 3, 4, 5, 0xdb, 0, 0, 0, 0], .kWriteable, 6, 10⟩)) :=
  ⟨by decide,
    (C12_write8 (Kernel.upTo 8) 0xdb (emptyBuffer 5) (by decide) (by decide) (by decide)
      (by decide)).1 (by decide),
    by decide⟩

/-! ## Growth -/

theorem Buffer_ensure_capacity_one_capacity_ge (kern : Kernel) (buf : Buffer) :
    buf.capacity ≤ (Buffer_ensure_capacity kern 1 buf).2.capacity := by
  rcases Buffer_ensure_capacity_cases kern 1 buf with
    ⟨-, h⟩ | ⟨-, e, h⟩ | ⟨hnfit, -, -, -, hdst, -, h⟩
  · rw [h]
  · rw [h]
  · rw [h]
    dsimp only
    rw [toUword_one] at hnfit
    -- the request of one byte does not fit, so `len ≥ capacity`; the copy of `len`
    -- bytes succeeded, so the new region holds at least `len` bytes
    have hmod : (buf.len + 1) % 2 ^ 64 ≤ buf.len + 1 := Nat.mod_le _ _
    omega

theorem Buffer_write8_capacity (kern : Kernel) (b : Nat) (buf : Buffer) :
    (Buffer_write8 kern b buf).2.capacity = (Buffer_ensure_capacity kern 1 buf).2.capacity := by
  unfold Buffer_write8
  rcases hens : Buffer_ensure_capacity kern 1 buf with ⟨r, buf1⟩
  cases r with
  | error e => rw [Exec.bind_of_error hens]
  | ok u =>
    rw [Exec.bind_of_ok hens]
    have hinc : Buffer_len_postinc buf1 =
        (.ok buf1.len, { buf1 with len := (buf1.len + 1) % 2 ^ 64 }) := rfl
    rw [Exec.bind_of_ok hinc]
    unfold Buffer_at_put8
    split <;> rfl

/-- A full live buffer grows on the next `Buffer_write8`. -/
theorem Buffer_ensure_capacity_one_full (kern : Kernel) (buf : Buffer) (hlive : buf.Live)
    (hfull : buf.len = buf.capacity) (hlen : buf.len + 1 < 2 ^ 63)
    (hgr : kern.grants (newCapacity buf.capacity 1) = true) :
    buf.capacity < (Buffer_ensure_capacity kern 1 buf).2.capacity := by
  rw [newCapacity_one] at hgr
  obtain ⟨hreg, hpos, hle⟩ := hlive
  have hwrap : (buf.len + 1) % 2 ^ 64 = buf.len + 1 := Nat.mod_eq_of_lt (by omega)
  have hnfit : ¬ (buf.len + toUword 1) % 2 ^ 64 ≤ buf.capacity := by
    rw [toUword_one, hwrap]; omega
  obtain ⟨hge, -⟩ := new_capacity_bounds buf.capacity 1 hpos (by omega)
  generalize hn : toUword (max (toWord ((buf.capacity * 2 % 2 ^ 64 : Nat) : Int))
      (toWord (((buf.capacity + 1) % 2 ^ 64 : Nat) : Int))) = n at hge
  rw [hn] at hgr
  have hens := Buffer_ensure_capacity_grows kern 1 buf n hnfit (by rw [toUword_one]; exact hn)
    (by omega) hgr (by omega) (by omega) (by omega)
  rw [hens]
  dsimp only
  omega

/-- A full live buffer moves to a region of `newCapacity` bytes when the kernel grants it. -/
theorem Buffer_ensure_capacity_one_new (kern : Kernel) (buf : Buffer) (hlive : buf.Live)
    (hfull : buf.len = buf.capacity) (hlen : buf.len + 1 < 2 ^ 63)
    (hgr : kern.grants (newCapacity buf.capacity 1) = true) :
    (Buffer_ensure_capacity kern 1 buf).2.capacity = newCapacity buf.capacity 1 := by
  obtain ⟨hreg, hpos, hle⟩ := hlive
  have hwrap : (buf.len + 1) % 2 ^ 64 = buf.len + 1 := Nat.mod_eq_of_lt (by omega)
  have hnfit : ¬ (buf.len + toUword 1) % 2 ^ 64 ≤ buf.capacity := by
    rw [toUword_one, hwrap]; omega
  obtain ⟨hge, -⟩ := new_capacity_bounds buf.capacity 1 hpos (by omega)
  rw [← newCapacity_one] at hge
  have hens := Buffer_ensure_capacity_grows kern 1 buf (newCapacity buf.capacity 1) hnfit rfl
    (by omega) hgr (by omega) (by omega) (by omega)
  rw [hens]

/-- C13. Writing past capacity grows the buffer: on a full writable live buffer
(`len = capacity`, `len + 1` below `2^63`, so that nothing overflows), when the kernel
grants the mapping asked for, `Buffer_write8` succeeds and leaves a capacity strictly
greater than the old one, with the bytes written before in order at their positions;
when the kernel refuses it, `Buffer_write8` stops at the assertion on `MAP_FAILED` and
the buffer is as it was; and no `Buffer_write8`, on any buffer, under any kernel and
whatever its outcome, leaves a capacity smaller than the one it found. -/
theorem C13_write8_grows (kern : Kernel) (b b2 : Nat) (buf buf2 : Buffer)
    (_hstate : buf.state = .kWriteable) (hlive : buf.Live) (hfull : buf.len = buf.capacity)
    (hlen : buf.len + 1 < 2 ^ 63) :
    (kern.grants (newCapacity buf.capacity 1) = true →
        ∃ buf1, Buffer_write8 kern b buf = (.ok (), buf1) ∧ buf.capacity < buf1.capacity ∧
          buf1.capacity = newCapacity buf.capacity 1 ∧
          buf1.len = buf.len + 1 ∧ buf1.bytes.take buf.len = buf.bytes ∧
          (∀ i, i < buf.len → Buffer_at8 buf1 i = Buffer_at8 buf i)) ∧
      (kern.grants (newCapacity buf.capacity 1) = false →
        Buffer_write8 kern b buf = (.error (.assertion "result != MAP_FAILED"), buf)) ∧
      (2 * buf.capacity < 2 ^ 63 → newCapacity buf.capacity 1 = 2 * buf.capacity) ∧
      buf2.capacity ≤ (Buffer_write8 kern b2 buf2).2.capacity := by
  refine ⟨fun hgr => ?_, fun href => Buffer_write8_refused kern b buf hlen hfull href,
    fun hdouble => newCapacity_one_double buf.capacity hlive.2.1 hdouble, ?_⟩
  · obtain ⟨b1, e1, -, n1, y1, -, -⟩ := Buffer_write8_ok kern b buf hlive hlen (fun _ => hgr)
    obtain ⟨hold, -⟩ := Buffer_at8_after_append buf b1 [b] hlive (by rw [n1]; rfl) y1
    have hcap : buf.capacity < b1.capacity := by
      have h := Buffer_ensure_capacity_one_full kern buf hlive hfull hlen hgr
      rw [← Buffer_write8_capacity kern b buf, e1] at h
      exact h
    have hnew : b1.capacity = newCapacity buf.capacity 1 := by
      have h := Buffer_ensure_capacity_one_new kern buf hlive hfull hlen hgr
      rw [← Buffer_write8_capacity kern b buf, e1] at h
      exact h
    refine ⟨b1, e1, hcap, hnew, n1, ?_, hold⟩
    rw [y1, ← Buffer.bytes_length buf hlive, List.take_left]
  · rw [Buffer_write8_capacity]
    exact Buffer_ensure_capacity_one_capacity_ge kern buf2

/-- C13 on the buffer of capacity 1 that holds `0xdb`, with the byte `0xef`, under the
kernel that grants the requests of at most 2 bytes; the run of the test: capacity 1, the
two writes, then capacity 2 and length 2; and the third write, which that kernel
refuses. -/
theorem C13_write8_grows_witness :
    ((⟨[0xdb], .kWriteable, 1, 1⟩ : Buffer).state = .kWriteable ∧
        (⟨[0xdb], .kWriteable, 1, 1⟩ : Buffer).Live ∧
        (⟨[0xdb], .kWriteable, 1, 1⟩ : Buffer).len = (⟨[0xdb], .kWriteable, 1, 1⟩ : Buffer).capacity ∧
        (⟨[0xdb], .kWriteable, 1, 1⟩ : Buffer).len + 1 < 2 ^ 63) ∧
      (∃ buf1, Buffer_write8 (Kernel.upTo 2) 0xef ⟨[0xdb], .kWriteable, 1, 1⟩ = (.ok (), buf1) ∧
        (⟨[0xdb], .kWriteable, 1, 1⟩ : Buffer).capacity < buf1.capacity ∧
        buf1.capacity = newCapacity (⟨[0xdb], .kWriteable, 1, 1⟩ : Buffer).capacity 1 ∧
        buf1.len = (⟨[0xdb], .kWriteable, 1, 1⟩ : Buffer).len + 1 ∧
        buf1.bytes.take (⟨[0xdb], .kWriteable, 1, 1⟩ : Buffer).len =
          (⟨[0xdb], .kWriteable, 1, 1⟩ : Buffer).bytes ∧
        (∀ i, i < (⟨[0xdb], .kWriteable, 1, 1⟩ : Buffer).len →
          Buffer_at8 buf1 i = Buffer_at8 ⟨[0xdb], .kWriteable, 1, 1⟩ i)) ∧
      (Buffer_init (Kernel.upTo 2) 1 = .ok (emptyBuffer 1) ∧
        Buffer_write8 (Kernel.upTo 2) 0xdb (emptyBuffer 1) =
          (.ok (), ⟨[0xdb], .kWriteable, 1, 1⟩) ∧
        Buffer_write8 (Kernel.upTo 2) 0xef ⟨[0xdb], .kWriteable, 1, 1⟩ =
          (.ok (), ⟨[0xdb, 0xef], .kWriteable, 2, 2⟩) ∧
        Buffer_write8 (Kernel.upTo 2) 0x01 ⟨[0xdb, 0xef], .kWriteable, 2, 2⟩ =
          (.error (.assertion "result != MAP_FAILED"), ⟨[0xdb, 0xef], .kWriteable, 2, 2⟩)) :=
  ⟨by decide,
    (C13_write8_grows (Kernel.upTo 2) 0xef 7 ⟨[0xdb], .kWriteable, 1, 1⟩ (emptyBuffer 4)
      (by decide) (by decide) (by decide) (by decide)).1 (by decide),
    by decide⟩

/-- C17. Re-encoding in `Compile_expr` restates the node: for the node `n` of an in-range
integer, of a character or of a boolean, the kind that matches in `Compile_expr` is the
kind of the constructor, and the word handed to the emitter
(`Object_encode_integer (AST_get_integer n)`, `Object_encode_char (AST_get_char n)`,
`Object_encode_bool (AST_get_bool n)`) is `n` itself; for the integer node the range
assertions of `Object_encode_integer` pass, and `Compile_expr n` is the emission of `n`. -/
theorem C17_reencode_restates (kern : Kernel) (v c : Int) (b : Bool) (hlo : kIntegerMin < v)
    (hhi : v < kIntegerMax) (hc0 : -128 ≤ c) (hc1 : c ≤ 127) :
    (∃ n, AST_new_integer v = .ok n ∧ AST_is_integer n = true ∧
        Object_encode_integer (AST_get_integer n) = .ok n ∧
        Compile_expr kern n = emitLiteral kern n) ∧
      (AST_is_integer (AST_new_char c) = false ∧ AST_is_char (AST_new_char c) = true ∧
        Object_encode_char (AST_get_char (AST_new_char c)) = AST_new_char c ∧
        Compile_expr kern (AST_new_char c) = emitLiteral kern (AST_new_char c)) ∧
      (AST_is_integer (AST_new_bool b) = false ∧ AST_is_char (AST_new_bool b) = false ∧
        AST_is_bool (AST_new_bool b) = true ∧
        Object_encode_bool (AST_get_bool (AST_new_bool b)) = AST_new_bool b ∧
        Compile_expr kern (AST_new_bool b) = emitLiteral kern (AST_new_bool b)) := by
  refine ⟨?_, ?_, ?_⟩
  · have henc := Object_encode_integer_of_range v hlo hhi
    obtain ⟨n, hn, hget, hn4⟩ := integer_round_trip_core v hlo hhi
    have hint : AST_is_integer n = true := by
      rw [AST_is_integer_iff, hn4]; omega
    have hre : Object_encode_integer (AST_get_integer n) = .ok n := by
      rw [hget, hn4]; exact henc
    exact ⟨n, hn, hint, hre, Compile_expr_integer kern n n hint hre⟩
  · have henc := Object_encode_char_eq c hc0 hc1
    have hint : AST_is_integer (AST_new_char c) = false := by
      rw [← Bool.not_eq_true, AST_is_integer_iff, AST_new_char, henc]; omega
    have hchar : AST_is_char (AST_new_char c) = true := by
      rw [AST_is_char_iff, AST_new_char, henc]; omega
    have hre : Object_encode_char (AST_get_char (AST_new_char c)) = AST_new_char c :=
      congrArg Object_encode_char (Object_decode_encode_char c hc0 hc1)
    refine ⟨hint, hchar, hre, ?_⟩
    rw [Compile_expr_char kern _ hint hchar, hre]
  · have hint : AST_is_integer (AST_new_bool b) = false := by cases b <;> decide
    have hchar : AST_is_char (AST_new_bool b) = false := by cases b <;> decide
    have hbool : AST_is_bool (AST_new_bool b) = true := by cases b <;> decide
    have hre : Object_encode_bool (AST_get_bool (AST_new_bool b)) = AST_new_bool b := by
      cases b <;> decide
    refine ⟨hint, hchar, hbool, hre, ?_⟩
    rw [Compile_expr_bool kern _ hint hchar hbool, hre]

/-- C17 at the integer `-123`, the character of pattern `0xe9` and `true`. -/
theorem C17_reencode_restates_witness :
    (kIntegerMin < -123 ∧ (-123 : Int) < kIntegerMax ∧ (-128 : Int) ≤ -23 ∧ (-23 : Int) ≤ 127) ∧
      ((∃ n, AST_new_integer (-123) = .ok n ∧ AST_is_integer n = true ∧
          Object_encode_integer (AST_get_integer n) = .ok n ∧
          Compile_expr (Kernel.upTo 16) n = emitLiteral (Kernel.upTo 16) n) ∧
        (AST_is_integer (AST_new_char (-23)) = false ∧ AST_is_char (AST_new_char (-23)) = true ∧
          Object_encode_char (AST_get_char (AST_new_char (-23))) = AST_new_char (-23) ∧
          Compile_expr (Kernel.upTo 16) (AST_new_char (-23)) = emitLiteral (Kernel.upTo 16) (AST_new_char (-23))) ∧
        (AST_is_integer (AST_new_bool true) = false ∧ AST_is_char (AST_new_bool true) = false ∧
          AST_is_bool (AST_new_bool true) = true ∧
          Object_encode_bool (AST_get_bool (AST_new_bool true)) = AST_new_bool true ∧
          Compile_expr (Kernel.upTo 16) (AST_new_bool true) = emitLiteral (Kernel.upTo 16) (AST_new_bool true))) ∧
      (Object_encode_integer (AST_get_integer (-492)) = .ok (-492) ∧
        Object_encode_char (AST_get_char (-5873)) = -5873 ∧
        Object_encode_bool (AST_get_bool 0x9f) = 0x9f) :=
  ⟨by decide, C17_reencode_restates (Kernel.upTo 16) (-123) (-23) true (by decide) (by decide) (by decide)
    (by decide), by decide⟩

/-- The outcome of `Compile_expr`, by the kind of the node: the emission of an immediate,
or a fault with the buffer as it was. -/
theorem Compile_expr_cases (kern : Kernel) (n : Int) (buf : Buffer) :
    (∃ imm, Compile_expr kern n = emitLiteral kern imm ∧
        (AST_is_char n = true ∨ AST_is_bool n = true ∨
          (AST_is_integer n = true ∧ kIntegerMin < wordShr n 2 ∧ wordShr n 2 < kIntegerMax))) ∨
      ((∃ e, Compile_expr kern n buf = (.error e, buf)) ∧
        ¬ (AST_is_char n = true ∨ AST_is_bool n = true ∨
          (AST_is_integer n = true ∧ kIntegerMin < wordShr n 2 ∧
            wordShr n 2 < kIntegerMax))) := by
  have hget : AST_get_integer n = wordShr n 2 := rfl
  cases hint : AST_is_integer n with
  | true =>
    have hnc : ¬ AST_is_char n = true := by
      rw [AST_is_char_iff]
      have := (AST_is_integer_iff n).mp hint
      omega
    have hnb : ¬ AST_is_bool n = true := by
      rw [AST_is_bool_iff]
      have := (AST_is_integer_iff n).mp hint
      omega
    by_cases hr : kIntegerMin < wordShr n 2 ∧ wordShr n 2 < kIntegerMax
    · left
      have henc := Object_encode_integer_of_range (wordShr n 2) hr.1 hr.2
      exact ⟨_, Compile_expr_integer kern n _ hint (by rw [hget]; exact henc),
        Or.inr (Or.inr ⟨rfl, hr⟩)⟩
    · right
      have hfail : ∃ e, Object_encode_integer (wordShr n 2) = .error e := by
        have h4 := Object_encode_integer_out_of_range (wordShr n 2)
        by_cases hhi : wordShr n 2 < kIntegerMax
        · exact ⟨_, h4.2 (by
            by_contra hcon
            exact hr ⟨by omega, hhi⟩)⟩
        · exact ⟨_, h4.1 (by omega)⟩
      obtain ⟨e, he⟩ := hfail
      refine ⟨⟨e, Compile_expr_integer_fault kern n e hint (by rw [hget]; exact he) buf⟩, ?_⟩
      rintro (h | h | ⟨-, h⟩)
      · exact hnc h
      · exact hnb h
      · exact hr h
  | false =>
    cases hchar : AST_is_char n with
    | true =>
      left
      exact ⟨_, Compile_expr_char kern n hint hchar, Or.inl rfl⟩
    | false =>
      cases hbool : AST_is_bool n with
      | true =>
        left
        exact ⟨_, Compile_expr_bool kern n hint hchar hbool, Or.inr (Or.inl rfl)⟩
      | false =>
        right
        refine ⟨⟨_, by rw [Compile_expr_other kern n hint hchar hbool]; rfl⟩, ?_⟩
        rintro (h | h | ⟨h, -⟩) <;> exact Bool.noConfusion h

/-- A computation that ends with `return c` yields no other value. -/
theorem Exec.bind_pure_status {α : Type} (m : Exec α) (c r : Int) (buf buf1 : Buffer)
    (h : (m >>= fun _ => (pure c : Exec Int)) buf = (.ok r, buf1)) : r = c := by
  rcases hm : m buf with ⟨res, b⟩
  cases res with
  | error e =>
    rw [Exec.bind_of_error hm] at h
    exact Except.noConfusion (Prod.mk.inj h).1
  | ok a =>
    rw [Exec.bind_of_ok hm, Exec.pure_apply] at h
    exact (Except.ok.inj (Prod.mk.inj h).1).symm

/-- The only status `Compile_expr` returns is 0, under any kernel. -/
theorem Compile_expr_status (kern : Kernel) (n r : Int) (buf buf1 : Buffer)
    (h : Compile_expr kern n buf = (.ok r, buf1)) : r = 0 := by
  rcases Compile_expr_cases kern n buf with ⟨imm, hexpr, -⟩ | ⟨⟨e, he⟩, -⟩
  · rw [hexpr] at h
    unfold emitLiteral at h
    exact Exec.bind_pure_status _ 0 r buf buf1 h
  · rw [he] at h
    exact Except.noConfusion (Prod.mk.inj h).1

/-- The only status `Compile_function` returns is 0, under any kernel. -/
theorem Compile_function_status (kern : Kernel) (n r : Int) (buf buf2 : Buffer)
    (h : Compile_function kern n buf = (.ok r, buf2)) : r = 0 := by
  rcases hce : Compile_expr kern n buf with ⟨res, b1⟩
  cases res with
  | error e =>
    rw [Compile_function_fault kern n buf b1 e hce] at h
    exact Except.noConfusion (Prod.mk.inj h).1
  | ok r1 =>
    have hr1 := Compile_expr_status kern n r1 buf b1 hce
    subst hr1
    unfold Compile_function at h
    rw [Exec.bind_of_ok hce] at h
    simp only [ne_eq, not_true_eq_false, if_false] at h
    exact Exec.bind_pure_status _ 0 r b1 buf2 h

/-- C18. Success of `Compile_expr` over arbitrary words, on a writable live buffer
(`len + 8` below `2^63`) and a 64-bit word `n`.  Under every kernel: `Compile_expr`
returns 0 with exactly 7 bytes appended only if `AST_is_char n`, or `AST_is_bool n`, or
`AST_is_integer n` with `kIntegerMin < n >> 2 < kIntegerMax`; in every other case it
stops with a fault and the buffer is as it was; and `Compile_function` returns no status
other than 0.  Under a kernel that grants the mappings the buffer has to ask for when 8
bytes do not fit: `Compile_expr` returns 0 with exactly 7 bytes appended if and only if
one of the three conditions holds, and `Compile_function` either stops with a fault, the
buffer as it was, or returns 0 with exactly 8 bytes appended. -/
theorem C18_compile_expr_success (kern : Kernel) (n : Int) (buf : Buffer) (_hn0 : -2 ^ 63 ≤ n)
    (_hn1 : n < 2 ^ 63) (_hstate : buf.state = .kWriteable) (hlive : buf.Live)
    (hlen : buf.len + 8 < 2 ^ 63) :
    ((∃ buf1, Compile_expr kern n buf = (.ok 0, buf1) ∧ buf1.len = buf.len + 7 ∧
          buf1.bytes.take buf.len = buf.bytes) →
        (AST_is_char n = true ∨ AST_is_bool n = true ∨
          (AST_is_integer n = true ∧ kIntegerMin < wordShr n 2 ∧ wordShr n 2 < kIntegerMax))) ∧
      (¬ (AST_is_char n = true ∨ AST_is_bool n = true ∨
          (AST_is_integer n = true ∧ kIntegerMin < wordShr n 2 ∧ wordShr n 2 < kIntegerMax)) →
        ∃ e, Compile_expr kern n buf = (.error e, buf)) ∧
      (∀ r buf2, Compile_function kern n buf = (.ok r, buf2) → r = 0) ∧
      (kern.GrantsGrowth buf 8 →
        ((∃ buf1, Compile_expr kern n buf = (.ok 0, buf1) ∧ buf1.len = buf.len + 7 ∧
            buf1.bytes.take buf.len = buf.bytes) ↔
          (AST_is_char n = true ∨ AST_is_bool n = true ∨
            (AST_is_integer n = true ∧ kIntegerMin < wordShr n 2 ∧
              wordShr n 2 < kIntegerMax))) ∧
        ((∃ e, Compile_function kern n buf = (.error e, buf)) ∨
          (∃ buf2, Compile_function kern n buf = (.ok 0, buf2) ∧ buf2.len = buf.len + 8 ∧
            buf2.bytes.take buf.len = buf.bytes))) := by
  have hbl := Buffer.bytes_length buf hlive
  have hstatus : ∀ r buf2, Compile_function kern n buf = (.ok r, buf2) → r = 0 :=
    fun r buf2 h => Compile_function_status kern n r buf buf2 h
  rcases Compile_expr_cases kern n buf with ⟨imm, hexpr, hcond⟩ | ⟨⟨e, he⟩, hncond⟩
  · refine ⟨fun _ => hcond, fun h => absurd hcond h, hstatus, fun hgrant => ?_⟩
    obtain ⟨b1, e1, -, n1, y1, -, -⟩ :=
      emitLiteral_ok kern imm buf hlive (by omega) (hgrant.mono (by omega))
    obtain ⟨b2, e2, -, n2, y2, -, -⟩ :=
      Compile_function_literal kern n imm buf hexpr hlive hlen hgrant
    rw [← hexpr] at e1
    refine ⟨⟨fun _ => hcond, fun _ => ⟨b1, e1, n1, ?_⟩⟩, Or.inr ⟨b2, e2, n2, ?_⟩⟩
    · rw [y1, ← hbl, List.take_left]
    · rw [y2, ← hbl, List.take_left]
  · have hnot : ¬ ∃ buf1, Compile_expr kern n buf = (.ok 0, buf1) ∧ buf1.len = buf.len + 7 ∧
        buf1.bytes.take buf.len = buf.bytes := by
      rintro ⟨b1, h1, -⟩
      rw [he] at h1
      exact Except.noConfusion (Prod.mk.inj h1).1
    exact ⟨fun h => absurd h hnot, fun _ => ⟨e, he⟩, hstatus,
      fun _ => ⟨⟨fun h => absurd h hnot, fun h => absurd h hncond⟩,
        Or.inl ⟨e, Compile_function_fault kern n buf buf e he⟩⟩⟩

/-- C18 at the character-tagged word `0x7fffffffffff000f`, which no constructor yields, on
the empty buffer of capacity 1, under the kernel that grants the requests of at most 16
bytes; and five runs evaluated: the word compiles, payload `kIntegerMin` and payload
`kIntegerMax` stop at a range assertion, the nil word stops at the last assertion, and
under the kernel that grants nothing the character-tagged word stops at the assertion on
`MAP_FAILED` after its first byte. -/
theorem C18_compile_expr_success_witness :
    ((-2 ^ 63 : Int) ≤ 0x7fffffffffff000f ∧ (0x7fffffffffff000f : Int) < 2 ^ 63 ∧
        (emptyBuffer 1).state = .kWriteable ∧ (emptyBuffer 1).Live ∧
        (emptyBuffer 1).len + 8 < 2 ^ 63 ∧ (Kernel.upTo 16).GrantsGrowth (emptyBuffer 1) 8) ∧
      (((∃ buf1, Compile_expr (Kernel.upTo 16) 0x7fffffffffff000f (emptyBuffer 1) =
              (.ok 0, buf1) ∧
            buf1.len = (emptyBuffer 1).len + 7 ∧
            buf1.bytes.take (emptyBuffer 1).len = (emptyBuffer 1).bytes) ↔
          (AST_is_char 0x7fffffffffff000f = true ∨ AST_is_bool 0x7fffffffffff000f = true ∨
            (AST_is_integer 0x7fffffffffff000f = true ∧
              kIntegerMin < wordShr 0x7fffffffffff000f 2 ∧
              wordShr 0x7fffffffffff000f 2 < kIntegerMax))) ∧
        ((∃ e, Compile_function (Kernel.upTo 16) 0x7fffffffffff000f (emptyBuffer 1) =
            (.error e, (emptyBuffer 1))) ∨
          (∃ buf2, Compile_function (Kernel.upTo 16) 0x7fffffffffff000f (emptyBuffer 1) =
              (.ok 0, buf2) ∧
            buf2.len = (emptyBuffer 1).len + 8 ∧
            buf2.bytes.take (emptyBuffer 1).len = (emptyBuffer 1).bytes))) ∧
      (Compile_expr (Kernel.upTo 16) 0x7fffffffffff000f (emptyBuffer 1) =
          (.ok 0, ⟨[0x48, 0xc7, 0xc0, 0x0f, 0x00, 0x00, 0x00, 0x00], .kWriteable, 7, 8⟩) ∧
        Compile_expr (Kernel.upTo 16) (-2 ^ 63) (emptyBuffer 1) =
          (.error (.assertion "too small"), emptyBuffer 1) ∧
        Compile_expr (Kernel.upTo 16) (2 ^ 62) (emptyBuffer 1) =
          (.error (.assertion "too big"), emptyBuffer 1) ∧
        Compile_function (Kernel.upTo 16) 0x2f (emptyBuffer 1) =
          (.error (.assertion "unexpected node type"), emptyBuffer 1) ∧
        Compile_expr Kernel.refusing 0x7fffffffffff000f (emptyBuffer 1) =
          (.error (.assertion "result != MAP_FAILED"), ⟨[0x48], .kWriteable, 1, 1⟩)) :=
  ⟨⟨by decide, by decide, by decide, by decide, by decide,
      Kernel.GrantsGrowth.of_upTo 16 (emptyBuffer 1) 8 (by decide)⟩,
    (C18_compile_expr_success (Kernel.upTo 16) 0x7fffffffffff000f (emptyBuffer 1) (by decide)
      (by decide) (by decide) (by decide) (by decide)).2.2.2
      (Kernel.GrantsGrowth.of_upTo 16 (emptyBuffer 1) 8 (by decide)),
    by decide!⟩

/-! ## The buffer as a byte list -/

theorem listModel_foldl (ws : List Write) (acc : List Nat) :
    ws.foldl (fun acc w => acc ++ w.listBytes) acc =
      acc ++ ws.foldl (fun acc w => acc ++ w.listBytes) [] := by
  induction ws generalizing acc with
  | nil => simp
  | cons w ws ih =>
    simp only [List.foldl_cons, List.nil_append]
    rw [ih (acc ++ w.listBytes), ih w.listBytes, List.append_assoc]

theorem listModel_cons (w : Write) (ws : List Write) :
    listModel (w :: ws) = w.listBytes ++ listModel ws := by
  unfold listModel
  simp only [List.foldl_cons, List.nil_append]
  exact listModel_foldl ws w.listBytes

theorem Write.listBytes_length_le (w : Write) : w.listBytes.length ≤ 4 := by
  cases w <;> simp [Write.listBytes, le32]

theorem Write.listBytes_pos (w : Write) : 1 ≤ w.listBytes.length := by
  cases w <;> simp [Write.listBytes, le32]

/-- One write on a live buffer appends its bytes, when the kernel grants the growth. -/
theorem Write.exec_ok (kern : Kernel) (w : Write) (buf : Buffer) (hlive : buf.Live)
    (hlen : buf.len + w.listBytes.length < 2 ^ 63)
    (hg : kern.GrantsGrowth buf w.listBytes.length) :
    ∃ buf1, w.exec kern buf = (.ok (), buf1) ∧ buf1.Live ∧
      buf1.len = buf.len + w.listBytes.length ∧ buf1.bytes = buf.bytes ++ w.listBytes ∧
      buf.capacity ≤ buf1.capacity := by
  cases w with
  | write8 b =>
    have hlen1 : buf.len + 1 < 2 ^ 63 := hlen
    obtain ⟨b1, e1, l1, n1, y1, -, c1⟩ := Buffer_write8_ok kern b buf hlive hlen1
      (fun hfull => hg.full (Nat.le_refl 1) hlive.2.1 hlen1 hfull)
    exact ⟨b1, e1, l1, n1, y1, c1⟩
  | write32 v =>
    obtain ⟨b1, e1, l1, n1, y1, -, c1⟩ := Buffer_write32_ok kern v buf hlive hlen hg
    exact ⟨b1, e1, l1, n1, y1, c1⟩

/-- A sequence of writes on a live buffer appends the plain list of its bytes, when the
kernel grants the growth. -/
theorem runWrites_ok (kern : Kernel) (ws : List Write) :
    ∀ buf : Buffer, buf.Live → buf.len + (listModel ws).length < 2 ^ 63 →
      kern.GrantsGrowth buf (listModel ws).length →
      ∃ buf1, runWrites kern ws buf = (.ok (), buf1) ∧ buf1.Live ∧
        buf1.len = buf.len + (listModel ws).length ∧
        buf1.bytes = buf.bytes ++ listModel ws := by
  induction ws with
  | nil =>
    intro buf hlive _ _
    exact ⟨buf, rfl, hlive, rfl, (List.append_nil _).symm⟩
  | cons w ws ih =>
    intro buf hlive hlen hg
    rw [listModel_cons, List.length_append] at hlen hg
    obtain ⟨b1, e1, l1, n1, y1, c1⟩ :=
      Write.exec_ok kern w buf hlive (by omega) (hg.mono (by omega))
    obtain ⟨b2, e2, l2, n2, y2⟩ := ih b1 l1 (by omega) (hg.rest _ _ n1 c1)
    refine ⟨b2, ?_, l2, ?_, ?_⟩
    · show (w.exec kern >>= fun _ => runWrites kern ws) buf = _
      rw [Exec.bind_of_ok e1]
      exact e2
    · rw [n2, n1, listModel_cons, List.length_append]
      omega
    · rw [y2, y1, listModel_cons, List.append_assoc]

/-- C19. The growable buffer refines a plain byte list, whatever its initial capacity:
for two buffers that `Buffer_init` created with capacities `c1` and `c2`, every sequence
of `Buffer_write8` and `Buffer_write32` calls (fewer than `2^63` bytes in all) and every
kernel that grants the mappings the two buffers have to ask for when the bytes do not
fit, the sequence runs to its end on both, and on each the length is the length of the
list obtained by appending the same bytes to the empty list, the bytes below `len` are
that list, and `Buffer_at8` reads its elements; so the two buffers agree in length and
contents. -/
theorem C19_buffer_refines_list (kern : Kernel) (c1 c2 : Nat) (buf1 buf2 : Buffer)
    (ws : List Write) (h1 : Buffer_init kern c1 = .ok buf1) (h2 : Buffer_init kern c2 = .ok buf2)
    (hsize : (listModel ws).length < 2 ^ 63)
    (hg1 : kern.GrantsGrowth buf1 (listModel ws).length)
    (hg2 : kern.GrantsGrowth buf2 (listModel ws).length) :
    ∃ r1 r2, runWrites kern ws buf1 = (.ok (), r1) ∧ runWrites kern ws buf2 = (.ok (), r2) ∧
      (r1.len = (listModel ws).length ∧ r1.bytes = listModel ws ∧
        ∀ i x, (listModel ws).get? i = some x → Buffer_at8 r1 i = .ok x) ∧
      (r2.len = (listModel ws).length ∧ r2.bytes = listModel ws ∧
        ∀ i x, (listModel ws).get? i = some x → Buffer_at8 r2 i = .ok x) ∧
      r1.len = r2.len ∧ r1.bytes = r2.bytes := by
  have key : ∀ (c : Nat) (buf : Buffer), Buffer_init kern c = .ok buf →
      kern.GrantsGrowth buf (listModel ws).length →
      ∃ r, runWrites kern ws buf = (.ok (), r) ∧ r.len = (listModel ws).length ∧
        r.bytes = listModel ws ∧
        ∀ i x, (listModel ws).get? i = some x → Buffer_at8 r i = .ok x := by
    intro c buf hinit hg
    obtain ⟨hc, -, hbuf⟩ := Buffer_init_inv kern c buf hinit
    subst hbuf
    have hlive := emptyBuffer_live c hc
    have hlen0 : (emptyBuffer c).len = 0 := rfl
    have hb0 : (emptyBuffer c).bytes = [] := rfl
    obtain ⟨r, e, -, n, y⟩ :=
      runWrites_ok kern ws (emptyBuffer c) hlive (by rw [hlen0]; omega) hg
    rw [hlen0, Nat.zero_add] at n
    rw [hb0, List.nil_append] at y
    refine ⟨r, e, n, y, ?_⟩
    intro i x hx
    have hi : i < (listModel ws).length := by
      by_contra hcon
      rw [List.get?_eq_none.mpr (by omega)] at hx
      exact Option.noConfusion hx
    exact Buffer_at8_of_bytes r i x (by omega) (by rw [y]; exact hx)
  obtain ⟨r1, e1, n1, y1, g1⟩ := key c1 buf1 h1 hg1
  obtain ⟨r2, e2, n2, y2, g2⟩ := key c2 buf2 h2 hg2
  exact ⟨r1, r2, e1, e2, ⟨n1, y1, g1⟩, ⟨n2, y2, g2⟩, by rw [n1, n2], by rw [y1, y2]⟩

/-- C19 at the capacities 1 and 10, with the writes `0xdb`, the 32-bit value of pattern
`0xDEADBEEF`, `0xef`, under the kernel that grants the requests of at most 12 bytes: both
buffers end with length 6 and the bytes `DB EF BE AD DE EF`, in regions of 8 and 10
bytes; under the kernel that grants at most 4 bytes the buffer of capacity 10 ends the
same way and the buffer of capacity 1 stops at the assertion on `MAP_FAILED` after four
bytes. -/
theorem C19_buffer_refines_list_witness :
    (Buffer_init (Kernel.upTo 12) 1 = .ok (emptyBuffer 1) ∧
        Buffer_init (Kernel.upTo 12) 10 = .ok (emptyBuffer 10) ∧
        (listModel [.write8 0xdb, .write32 (toInt32 0xdeadbeef), .write8 0xef]).length <
          2 ^ 63 ∧
        (Kernel.upTo 12).GrantsGrowth (emptyBuffer 1)
          (listModel [.write8 0xdb, .write32 (toInt32 0xdeadbeef), .write8 0xef]).length ∧
        (Kernel.upTo 12).GrantsGrowth (emptyBuffer 10)
          (listModel [.write8 0xdb, .write32 (toInt32 0xdeadbeef), .write8 0xef]).length) ∧
      (∃ r1 r2,
        runWrites (Kernel.upTo 12) [.write8 0xdb, .write32 (toInt32 0xdeadbeef), .write8 0xef]
            (emptyBuffer 1) = (.ok (), r1) ∧
        runWrites (Kernel.upTo 12) [.write8 0xdb, .write32 (toInt32 0xdeadbeef), .write8 0xef]
            (emptyBuffer 10) = (.ok (), r2) ∧
        (r1.len = (listModel [.write8 0xdb, .write32 (toInt32 0xdeadbeef), .write8 0xef]).length ∧
          r1.bytes = listModel [.write8 0xdb, .write32 (toInt32 0xdeadbeef), .write8 0xef] ∧
          ∀ i x, (listModel [.write8 0xdb, .write32 (toInt32 0xdeadbeef), .write8 0xef]).get? i =
            some x → Buffer_at8 r1 i = .ok x) ∧
        (r2.len = (listModel [.write8 0xdb, .write32 (toInt32 0xdeadbeef), .write8 0xef]).length ∧
          r2.bytes = listModel [.write8 0xdb, .write32 (toInt32 0xdeadbeef), .write8 0xef] ∧
          ∀ i x, (listModel [.write8 0xdb, .write32 (toInt32 0xdeadbeef), .write8 0xef]).get? i =
            some x → Buffer_at8 r2 i = .ok x) ∧
        r1.len = r2.len ∧ r1.bytes = r2.bytes) ∧
      (listModel [.write8 0xdb, .write32 (toInt32 0xdeadbeef), .write8 0xef] =
          [0xdb, 0xef, 0xbe, 0xad, 0xde, 0xef] ∧
        runWrites (Kernel.upTo 12) [.write8 0xdb, .write32 (toInt32 0xdeadbeef), .write8 0xef]
            (emptyBuffer 1) =
          (.ok (), ⟨[0xdb, 0xef, 0xbe, 0xad, 0xde, 0xef, 0, 0], .kWriteable, 6, 8⟩) ∧
        runWrites (Kernel.upTo 12) [.write8 0xdb, .write32 (toInt32 0xdeadbeef), .write8 0xef]
            (emptyBuffer 10) =
          (.ok (), ⟨[0xdb, 0xef, 0xbe, 0xad, 0xde, 0xef, 0, 0, 0, 0], .kWriteable, 6, 10⟩) ∧
        runWrites (Kernel.upTo 4) [.write8 0xdb, .write32 (toInt32 0xdeadbeef), .write8 0xef]
            (emptyBuffer 1) =
          (.error (.assertion "result != MAP_FAILED"),
            ⟨[0xdb, 0xef, 0xbe, 0xad], .kWriteable, 4, 4⟩)) :=
  ⟨⟨by decide, by decide, by decide,
      Kernel.GrantsGrowth.of_upTo 12 (emptyBuffer 1) _ (by decide),
      Kernel.GrantsGrowth.of_upTo 12 (emptyBuffer 10) _ (by decide)⟩,
    C19_buffer_refines_list (Kernel.upTo 12) 1 10 (emptyBuffer 1) (emptyBuffer 10)
      [.write8 0xdb, .write32 (toInt32 0xdeadbeef), .write8 0xef] (by decide) (by decide)
      (by decide) (Kernel.GrantsGrowth.of_upTo 12 (emptyBuffer 1) _ (by decide))
      (Kernel.GrantsGrowth.of_upTo 12 (emptyBuffer 10) _ (by decide)),
    by decide!⟩

end Jit
